import Mathlib

/-!
# The Interest packet of ndn-cxx (`ndn-cxx/src/interest.hpp`)

A shallow embedding of `ndn::Interest`: its fields, the accessors and mutators that
the header defines inline, and the members that the header only declares
(wire codec, Link handling, nonce handling).  The inline members are
translated from the header; the declared-only members are modelled from the
specification and from the contracts documented at their declarations.
-/

namespace ndn

/-! ## Data model -/

/-- A byte string; an octet is a natural number below 256. -/
abbrev Bytes := List Nat

/-- Modelled from the spec: a name component, an opaque byte string
(`name-component.hpp` is not available). -/
abbrev Component := List Nat

/-- Modelled from the spec: a name, the ordered sequence of its components (`name.hpp`
is not available). -/
abbrev Name := List Component

/-- Modelled from the spec: a TLV element that has a wire, given by its type number and
its value octets (`encoding/block.hpp` is not available).  A C++ `Block` member is an
`Option Block`:
`none` is the block without wire (`hasWire()` false, the state after `reset()`). -/
structure Block where
  type : Nat
  value : Bytes
deriving DecidableEq, Repr

/-! ## TLV primitives

`encoding/tlv.hpp`, `encoding/block.hpp` and `encoding/block-helpers.hpp` are not
available.  The specification fixes the wire form as type-length-value with a
variable-length integer prefix and refers to the existing NDN schema for the numbers;
the definitions below follow that schema. -/

namespace tlv

/-- Modelled from the spec: the type numbers of `encoding/tlv.hpp` (not available),
one per field of the schema of section 4.1; the Link block travels under number 6. -/
abbrev Interest : Nat := 5
abbrev Link : Nat := 6
abbrev Name : Nat := 7
abbrev NameComponent : Nat := 8
abbrev Selectors : Nat := 9
abbrev Nonce : Nat := 10
abbrev InterestLifetime : Nat := 12
abbrev MinSuffixComponents : Nat := 13
abbrev MaxSuffixComponents : Nat := 14
abbrev Exclude : Nat := 16
abbrev ChildSelector : Nat := 17
abbrev MustBeFresh : Nat := 18
abbrev KeyLocator : Nat := 28
abbrev SelectedDelegation : Nat := 32

/-- The `w` octets of `n`, most significant first (the low `8 * w` bits of `n`). -/
def toBE : Nat → Nat → Bytes
  | 0, _ => []
  | w + 1, n => (n / 256 ^ w) % 256 :: toBE w n

/-- The number a big-endian octet string denotes. -/
def fromBE (bs : Bytes) : Nat := bs.foldl (fun acc b => acc * 256 + b) 0

/-- Read `w` big-endian octets off the front of a buffer. -/
def readBE (w : Nat) (bs : Bytes) : Option (Nat × Bytes) :=
  if w ≤ bs.length then some (fromBE (bs.take w), bs.drop w) else none

/-- Modelled from the spec: the variable-length integer that prefixes every TLV
(`tlv::writeVarNumber`, not available): one octet below 253, else a marker octet
253, 254 or 255 followed by 2, 4 or 8 octets. -/
def writeVarNumber (n : Nat) : Bytes :=
  if n < 253 then [n]
  else if n < 2 ^ 16 then 253 :: toBE 2 n
  else if n < 2 ^ 32 then 254 :: toBE 4 n
  else 255 :: toBE 8 n

/-- Modelled from the spec: the reader of the variable-length integer
(`tlv::readVarNumber`, not available); a truncated buffer is rejected. -/
def readVarNumber : Bytes → Option (Nat × Bytes)
  | [] => none
  | b :: rest =>
    if b < 253 then some (b, rest)
    else if b = 253 then readBE 2 rest
    else if b = 254 then readBE 4 rest
    else if b = 255 then readBE 8 rest
    else none

/-- Modelled from the spec: the value of a non-negative-integer TLV
(`prependNonNegativeInteger`, not available): 1, 2, 4 or 8 octets, the shortest that fits. -/
def writeNonNegativeInteger (n : Nat) : Bytes :=
  if n < 2 ^ 8 then toBE 1 n
  else if n < 2 ^ 16 then toBE 2 n
  else if n < 2 ^ 32 then toBE 4 n
  else toBE 8 n

/-- Modelled from the spec: the reader of a non-negative-integer value
(`readNonNegativeInteger`, not available); any other length is a format error. -/
def readNonNegativeInteger (v : Bytes) : Option Nat :=
  if v.length = 1 ∨ v.length = 2 ∨ v.length = 4 ∨ v.length = 8 then some (fromBE v) else none

end tlv

/-- Modelled from the spec: the octets of a TLV element (`Block::wire`, not available):
type, length, value. -/
def Block.wire (b : Block) : Bytes :=
  tlv.writeVarNumber b.type ++ tlv.writeVarNumber b.value.length ++ b.value

/-- Modelled from the spec: the octets of a sequence of elements, one after the other. -/
def Block.wires : List Block → Bytes
  | [] => []
  | b :: bs => b.wire ++ Block.wires bs

/-- Modelled from the spec: read one TLV element off the front of a buffer
(`Block::fromBuffer`, not available); a buffer shorter than the declared length is
rejected. -/
def Block.fromBuffer (bs : Bytes) : Option (Block × Bytes) :=
  match tlv.readVarNumber bs with
  | none => none
  | some (t, r1) =>
    match tlv.readVarNumber r1 with
    | none => none
    | some (len, r2) =>
      if len ≤ r2.length then some (⟨t, r2.take len⟩, r2.drop len) else none

/-- Modelled from the spec: split a value into its sub-elements; `fuel` bounds the number
of elements. -/
def Block.parseElements : Nat → Bytes → Option (List Block)
  | _, [] => some []
  | 0, _ :: _ => none
  | fuel + 1, b :: bs =>
    match Block.fromBuffer (b :: bs) with
    | none => none
    | some (e, rest) => (Block.parseElements fuel rest).map (e :: ·)

/-- Modelled from the spec: the sub-elements of a value (`Block::parse`, not available);
every element takes at least two octets, so the length of the value is fuel enough. -/
def Block.parse (value : Bytes) : Option (List Block) :=
  Block.parseElements value.length value

/-- Modelled from the spec: the octet-wise comparison of two wires (`Block::operator==`,
not available): equal sizes and equal octets at every position. -/
def Block.bytesEqual : Bytes → Bytes → Bool
  | [], [] => true
  | x :: xs, y :: ys => x == y && Block.bytesEqual xs ys
  | _, _ => false

/-- Modelled from the spec: the key-locator filter, kept as the body of its element;
empty when no locator is set (`key-locator.hpp` is not available). -/
abbrev KeyLocator := Bytes

/-- Modelled from the spec: the exclusion set of a request, kept as the excluded
components (`exclude.hpp` is not available). -/
abbrev Exclude := List Component

/-- Modelled from the spec: the value bundle of `selectors.hpp` (not available); the
integer fields are `int` with neutral value `-1`. -/
structure Selectors where
  m_minSuffixComponents : Int
  m_maxSuffixComponents : Int
  m_publisherPublicKeyLocator : KeyLocator
  m_exclude : Exclude
  m_childSelector : Int
  m_mustBeFresh : Bool
deriving DecidableEq, Repr

/-- Modelled from the spec: the selectors a fresh request carries, all fields neutral. -/
def Selectors.default : Selectors :=
  { m_minSuffixComponents := -1, m_maxSuffixComponents := -1,
    m_publisherPublicKeyLocator := [], m_exclude := [],
    m_childSelector := -1, m_mustBeFresh := false }

/-- Modelled from the spec: the field setters of `Selectors` (not available) assign
their field. -/
def Selectors.setMinSuffixComponents (s : Selectors) (v : Int) : Selectors :=
  { s with m_minSuffixComponents := v }

def Selectors.setMaxSuffixComponents (s : Selectors) (v : Int) : Selectors :=
  { s with m_maxSuffixComponents := v }

def Selectors.setPublisherPublicKeyLocator (s : Selectors) (k : KeyLocator) : Selectors :=
  { s with m_publisherPublicKeyLocator := k }

def Selectors.setExclude (s : Selectors) (e : Exclude) : Selectors :=
  { s with m_exclude := e }

def Selectors.setChildSelector (s : Selectors) (v : Int) : Selectors :=
  { s with m_childSelector := v }

def Selectors.setMustBeFresh (s : Selectors) (b : Bool) : Selectors :=
  { s with m_mustBeFresh := b }

/-! ## Codecs of the parts (modelled: `name.hpp`, `selectors.hpp` are not available) -/

/-- Modelled from the spec: the Name element (`Name::wireEncode`, not available): one
component element per component, in order. -/
def Name.wireEncode (n : Name) : Block :=
  ⟨tlv.Name, Block.wires (n.map fun c => ⟨tlv.NameComponent, c⟩)⟩

/-- Modelled from the spec: the reader of a Name element (`Name::wireDecode`, not
available); a wrong type, a malformed value or a foreign sub-element is a format error. -/
def Name.wireDecode (b : Block) : Option Name :=
  if b.type = tlv.Name then
    match Block.parse b.value with
    | none => none
    | some els =>
      if els.all (fun e => e.type == tlv.NameComponent) then some (els.map Block.value)
      else none
  else none

/-- Modelled from the spec: the "has any selector" test (`Selectors::empty`, not
available): field-by-field comparison with the neutral defaults. -/
def Selectors.empty (s : Selectors) : Bool :=
  s.m_minSuffixComponents == -1 && s.m_maxSuffixComponents == -1 &&
  s.m_publisherPublicKeyLocator == [] && s.m_exclude == [] &&
  s.m_childSelector == -1 && !s.m_mustBeFresh

/-- Modelled from the spec: an optional non-negative-integer element: omitted at the
neutral value `-1`. -/
def Selectors.intElement (type : Nat) (v : Int) : List Block :=
  if v = -1 then [] else [⟨type, tlv.writeNonNegativeInteger v.toNat⟩]

/-- Modelled from the spec: the sub-elements of the Selectors block, in schema order;
a field at its neutral default is omitted. -/
def Selectors.elements (s : Selectors) : List Block :=
  Selectors.intElement tlv.MinSuffixComponents s.m_minSuffixComponents ++
  Selectors.intElement tlv.MaxSuffixComponents s.m_maxSuffixComponents ++
  (if s.m_publisherPublicKeyLocator = [] then []
   else [⟨tlv.KeyLocator, s.m_publisherPublicKeyLocator⟩]) ++
  (if s.m_exclude = [] then []
   else [⟨tlv.Exclude, Block.wires (s.m_exclude.map fun c => ⟨tlv.NameComponent, c⟩)⟩]) ++
  Selectors.intElement tlv.ChildSelector s.m_childSelector ++
  (if s.m_mustBeFresh then [⟨tlv.MustBeFresh, []⟩] else [])

/-- Modelled from the spec: the Selectors block (`Selectors::wireEncode`, not available). -/
def Selectors.wireEncode (s : Selectors) : Block :=
  ⟨tlv.Selectors, Block.wires s.elements⟩

/-- Modelled from the spec: take the head of an element list if it has the wanted type. -/
def Block.takeOpt (type : Nat) : List Block → Option Block × List Block
  | [] => (none, [])
  | e :: es => if e.type = type then (some e, es) else (none, e :: es)

/-- Modelled from the spec: read an optional non-negative-integer element; absent means
the neutral `-1`. -/
def Selectors.readInt : Option Block → Option Int
  | none => some (-1)
  | some e => (tlv.readNonNegativeInteger e.value).map Int.ofNat

/-- Modelled from the spec: read the optional Exclude element; absent means the empty
set. -/
def Selectors.readExclude : Option Block → Option Exclude
  | none => some []
  | some e =>
    match Block.parse e.value with
    | none => none
    | some els =>
      if els.all (fun c => c.type == tlv.NameComponent) then some (els.map Block.value)
      else none

/-- Modelled from the spec: the reader of the Selectors block (`Selectors::wireDecode`,
not available): the sub-elements are taken in schema order, each optional; anything
left over (out of order, repeated or unknown) is a format error. -/
def Selectors.wireDecode (b : Block) : Option Selectors :=
  if b.type = tlv.Selectors then
    match Block.parse b.value with
    | none => none
    | some els =>
      let (eMin, r1) := Block.takeOpt tlv.MinSuffixComponents els
      let (eMax, r2) := Block.takeOpt tlv.MaxSuffixComponents r1
      let (eKey, r3) := Block.takeOpt tlv.KeyLocator r2
      let (eExc, r4) := Block.takeOpt tlv.Exclude r3
      let (eChild, r5) := Block.takeOpt tlv.ChildSelector r4
      let (eFresh, r6) := Block.takeOpt tlv.MustBeFresh r5
      match Selectors.readInt eMin, Selectors.readInt eMax, Selectors.readExclude eExc,
            Selectors.readInt eChild, r6 with
      | some vMin, some vMax, some exc, some vChild, [] =>
        some { m_minSuffixComponents := vMin, m_maxSuffixComponents := vMax,
               m_publisherPublicKeyLocator := (eKey.map Block.value).getD [],
               m_exclude := exc, m_childSelector := vChild,
               m_mustBeFresh := eFresh.isSome }
      | _, _, _, _, _ => none
  else none

/-- Modelled from the spec: the face identifiers of `nfd::LocalControlHeader`
(`management/nfd-local-control-header.hpp` is not available), both `uint64_t`. -/
structure LocalControlHeader where
  m_incomingFaceId : Nat
  m_nextHopFaceId : Nat
deriving DecidableEq, Repr

/-- Modelled from the spec: the setters of `nfd::LocalControlHeader` (not available)
store the identifier. -/
def LocalControlHeader.setIncomingFaceId (h : LocalControlHeader) (faceId : Nat) :
    LocalControlHeader :=
  { h with m_incomingFaceId := faceId % 2 ^ 64 }

def LocalControlHeader.setNextHopFaceId (h : LocalControlHeader) (faceId : Nat) :
    LocalControlHeader :=
  { h with m_nextHopFaceId := faceId % 2 ^ 64 }

/-- `DEFAULT_INTEREST_LIFETIME`, in milliseconds. -/
def DEFAULT_INTEREST_LIFETIME : Int := 4000

/-- The private members of `class Interest`, with both optional extensions
(`NDN_CXX_MAPME`, `NDN_CXX_KITE`) compiled in.  `m_nonce` is the Nonce block, kept as
the 32-bit value it carries; `m_selectedDelegationIndex` is `none` for the invalid
index; `m_specialInterestType` is the numeric value of `tlv::SpecialInterestTypeValue`;
`m_traceForwardingFlag` is a `uint8_t`; `m_wire` is the cached wire encoding of the
whole packet. -/
structure Interest where
  m_name : Name
  m_selectors : Selectors
  m_nonce : Option Nat
  m_interestLifetime : Int
  m_link : Option Block
  m_selectedDelegationIndex : Option Nat
  m_specialInterestType : Nat
  m_specialInterestSequenceNumber : Int
  m_traceForwardingFlag : Nat
  m_traceName : Name
  m_wire : Option Bytes
  m_localControlHeader : LocalControlHeader
deriving DecidableEq, Repr

/-- What a call that may throw leaves behind: the exception, if one was thrown, and the
object as it is after the call. -/
structure Outcome where
  error : Option String
  state : Interest
deriving DecidableEq, Repr

namespace Interest

/-! ## Members defined inline in the header -/

def hasWire (i : Interest) : Bool := i.m_wire.isSome

def getName (i : Interest) : Name := i.m_name

def setName (i : Interest) (name : Name) : Interest :=
  { i with m_name := name, m_wire := none }

def getTraceName (i : Interest) : Name := i.m_traceName

def setTraceName (i : Interest) (name : Name) : Interest :=
  { i with m_traceName := name, m_wire := none }

def getTraceForwardingFlag (i : Interest) : Nat := i.m_traceForwardingFlag

def setTraceForwardingFlag (i : Interest) (flag : Nat) : Interest :=
  { i with m_traceForwardingFlag := flag % 2 ^ 8, m_wire := none }

def getInterestLifetime (i : Interest) : Int := i.m_interestLifetime

def setInterestLifetime (i : Interest) (interestLifetime : Int) : Interest :=
  { i with m_interestLifetime := interestLifetime, m_wire := none }

def hasNonce (i : Interest) : Bool := i.m_nonce.isSome

def getLocalControlHeader (i : Interest) : LocalControlHeader := i.m_localControlHeader

def getIncomingFaceId (i : Interest) : Nat := i.getLocalControlHeader.m_incomingFaceId

/-- The wire is deliberately not reset here. -/
def setIncomingFaceId (i : Interest) (incomingFaceId : Nat) : Interest :=
  { i with m_localControlHeader := i.m_localControlHeader.setIncomingFaceId incomingFaceId }

def getNextHopFaceId (i : Interest) : Nat := i.getLocalControlHeader.m_nextHopFaceId

/-- The wire is deliberately not reset here. -/
def setNextHopFaceId (i : Interest) (nextHopFaceId : Nat) : Interest :=
  { i with m_localControlHeader := i.m_localControlHeader.setNextHopFaceId nextHopFaceId }

def hasSelectors (i : Interest) : Bool := !i.m_selectors.empty

def getSelectors (i : Interest) : Selectors := i.m_selectors

def setSelectors (i : Interest) (selectors : Selectors) : Interest :=
  { i with m_selectors := selectors, m_wire := none }

def getMinSuffixComponents (i : Interest) : Int := i.m_selectors.m_minSuffixComponents

def setMinSuffixComponents (i : Interest) (minSuffixComponents : Int) : Interest :=
  { i with m_selectors := i.m_selectors.setMinSuffixComponents minSuffixComponents,
           m_wire := none }

def getMaxSuffixComponents (i : Interest) : Int := i.m_selectors.m_maxSuffixComponents

def setMaxSuffixComponents (i : Interest) (maxSuffixComponents : Int) : Interest :=
  { i with m_selectors := i.m_selectors.setMaxSuffixComponents maxSuffixComponents,
           m_wire := none }

def getPublisherPublicKeyLocator (i : Interest) : KeyLocator :=
  i.m_selectors.m_publisherPublicKeyLocator

def setPublisherPublicKeyLocator (i : Interest) (keyLocator : KeyLocator) : Interest :=
  { i with m_selectors := i.m_selectors.setPublisherPublicKeyLocator keyLocator,
           m_wire := none }

def getExclude (i : Interest) : Exclude := i.m_selectors.m_exclude

def setExclude (i : Interest) (exclude : Exclude) : Interest :=
  { i with m_selectors := i.m_selectors.setExclude exclude, m_wire := none }

def getChildSelector (i : Interest) : Int := i.m_selectors.m_childSelector

def setChildSelector (i : Interest) (childSelector : Int) : Interest :=
  { i with m_selectors := i.m_selectors.setChildSelector childSelector, m_wire := none }

/-- Declared with return type `int`: the flag as 0 or 1. -/
def getMustBeFresh (i : Interest) : Int := if i.m_selectors.m_mustBeFresh then 1 else 0

def setMustBeFresh (i : Interest) (mustBeFresh : Bool) : Interest :=
  { i with m_selectors := i.m_selectors.setMustBeFresh mustBeFresh, m_wire := none }

def getSpecialInterestType (i : Interest) : Nat := i.m_specialInterestType

def getSequenceNumber (i : Interest) : Int := i.m_specialInterestSequenceNumber

/-- The guard throws before any member is assigned; otherwise both members are stored
and the wire is reset. -/
def setAsSpecialInterest (i : Interest) (type : Nat) (sequenceNumber : Int) : Outcome :=
  if sequenceNumber < -1 then
    { error := some ("Sequence number set is not valid, sequence number must be >=-1. " ++
        "Value of sequence number is not modified."),
      state := i }
  else
    { error := none,
      state := { i with m_specialInterestType := type,
                        m_specialInterestSequenceNumber := sequenceNumber,
                        m_wire := none } }

/-! ## Construction (declared in the header, defined in `interest.cpp`, which is not available) -/

/-- Modelled from the spec: the constructors `Interest(name)` and
`Interest(name, lifetime)` (defined in `interest.cpp`, not available): neutral
selectors, no nonce, no Link, no selected delegation, no cached wire, sequence number
`-1` (no special interest), trace flag at its "neglected" value, face identifiers at
the invalid value. -/
def create (name : Name) (interestLifetime : Int) : Interest :=
  { m_name := name, m_selectors := Selectors.default, m_nonce := none,
    m_interestLifetime := interestLifetime, m_link := none,
    m_selectedDelegationIndex := none, m_specialInterestType := 0,
    m_specialInterestSequenceNumber := -1, m_traceForwardingFlag := 2 ^ 8 - 1,
    m_traceName := [], m_wire := none,
    m_localControlHeader := { m_incomingFaceId := 2 ^ 64 - 1, m_nextHopFaceId := 2 ^ 64 - 1 } }

end Interest

/-! ## Nonce (declared in the header, defined in `interest.cpp`, which is not available) -/

/-- Modelled from the spec: the random words the generator is going to hand out
(`util/random.hpp` is not available): word number `k` is `words k`, reduced to 32 bits;
`pos` counts the words drawn. -/
structure RandomSource where
  words : Nat → Nat
  pos : Nat

/-- Modelled from the spec: one call of `random::generateWord32()` (not available). -/
def RandomSource.generateWord32 (r : RandomSource) : Nat × RandomSource :=
  (r.words r.pos % 2 ^ 32, { r with pos := r.pos + 1 })

/-- Modelled from the spec: overwrite, inside a run of elements, the four value octets of
the first Nonce
element; every other octet stays where it is. -/
def Block.patchNonce (new : Bytes) : Nat → Bytes → Bytes
  | 0, bs => bs
  | fuel + 1, bs =>
    match tlv.readVarNumber bs with
    | none => bs
    | some (t, r1) =>
      match tlv.readVarNumber r1 with
      | none => bs
      | some (len, r2) =>
        if t = tlv.Nonce ∧ len = 4 then
          bs.take (bs.length - r2.length) ++ new ++ r2.drop 4
        else
          bs.take (bs.length - r2.length) ++ r2.take len ++
            Block.patchNonce new fuel (r2.drop len)

namespace Interest

/-- Modelled from the spec: overwrite the nonce inside an encoded Interest, in place. -/
def replaceNonceInWire (wire : Bytes) (nonce : Nat) : Bytes :=
  match tlv.readVarNumber wire with
  | none => wire
  | some (_, r1) =>
    match tlv.readVarNumber r1 with
    | none => wire
    | some (_, r2) =>
      wire.take (wire.length - r2.length) ++ Block.patchNonce (tlv.toBE 4 nonce) r2.length r2

/-- Modelled from the spec: the body of `Interest::setNonce` (`interest.cpp`) is not
available; the model follows the contract documented at its declaration in `interest.hpp`:
"If wire format already exists, this call simply replaces nonce in the existing wire
format, without resetting and recreating it."  Where there is no nonce in a cached wire
to replace, the nonce is stored and the wire is reset. -/
def setNonce (i : Interest) (nonce : Nat) : Interest :=
  match i.m_wire, i.m_nonce with
  | some w, some _ =>
    { i with m_nonce := some (nonce % 2 ^ 32),
             m_wire := some (replaceNonceInWire w (nonce % 2 ^ 32)) }
  | _, _ => { i with m_nonce := some (nonce % 2 ^ 32), m_wire := none }

/-- Modelled from the spec: `Interest::getNonce` (`interest.cpp`, not available), after
its contract in `interest.hpp`: "If nonce was not set before this call, it will be
automatically assigned to a random value".  Returns the nonce, the object and the
generator after the call. -/
def getNonce (i : Interest) (r : RandomSource) : Nat × Interest × RandomSource :=
  match i.m_nonce with
  | some n => (n % 2 ^ 32, i, r)
  | none => (r.generateWord32.1, i.setNonce r.generateWord32.1, r.generateWord32.2)

/-- Modelled from the spec: the retry loop of `refreshNonce`: draw words until one
differs from the old nonce;
`fuel` bounds the number of draws. -/
def refreshLoop (oldNonce : Nat) : Nat → RandomSource → Option (Nat × RandomSource)
  | 0, _ => none
  | fuel + 1, r =>
    if r.generateWord32.1 = oldNonce then refreshLoop oldNonce fuel r.generateWord32.2
    else some r.generateWord32

/-- Modelled from the spec: `Interest::refreshNonce` (`interest.cpp`, not available),
after its contract in `interest.hpp`: nothing happens without a nonce; otherwise words
are drawn until one differs from the current nonce, and that word is set.  The result
is `none` when `fuel` draws were all equal to the current nonce. -/
def refreshNonce (i : Interest) (fuel : Nat) (r : RandomSource) :
    Option (Interest × RandomSource) :=
  if i.hasNonce then
    match refreshLoop (i.getNonce r).1 fuel r with
    | none => none
    | some (newNonce, r1) => some (i.setNonce newNonce, r1)
  else some (i, r)

/-! ## Wire codec (declared in the header, defined in `interest.cpp`, which is not available) -/

/-- Modelled from the spec: the InterestLifetime element: omitted for "none" (negative)
and for the default. -/
def lifetimeElement (t : Int) : List Block :=
  if 0 ≤ t ∧ t ≠ DEFAULT_INTEREST_LIFETIME then
    [⟨tlv.InterestLifetime, tlv.writeNonNegativeInteger t.toNat⟩]
  else []

/-- Modelled from the spec: the Link block and, behind it, the index of the selected
delegation; the index is
meaningful only when a Link is present. -/
def linkElements : Option Block → Option Nat → List Block
  | none, _ => []
  | some l, none => [l]
  | some l, some k => [l, ⟨tlv.SelectedDelegation, tlv.writeNonNegativeInteger k⟩]

/-- Modelled from the spec: the sub-elements of an encoded Interest, in the strict order
of section 4.1: Name, Selectors, Nonce, InterestLifetime, Link, SelectedDelegation;
a field absent at the semantic level is omitted. -/
def elements (i : Interest) (nonce : Nat) : List Block :=
  Name.wireEncode i.m_name ::
    ((if i.hasSelectors then [i.m_selectors.wireEncode] else []) ++
      (⟨tlv.Nonce, tlv.toBE 4 nonce⟩ ::
        (lifetimeElement i.m_interestLifetime ++
          linkElements i.m_link i.m_selectedDelegationIndex)))

/-- Modelled from the spec: the octets of the outer Interest element around the
sub-elements. -/
def encoding (i : Interest) (nonce : Nat) : Bytes :=
  (Block.mk tlv.Interest (Block.wires (i.elements nonce))).wire

/-- Modelled from the spec: the encoder `wireEncode(encoder)` (`interest.cpp`, not
available): a nonce is assigned if none is set, then the outer Interest element is
written. -/
def wireEncodeImpl (i : Interest) (r : RandomSource) : Bytes × Interest × RandomSource :=
  ((i.getNonce r).2.1.encoding (i.getNonce r).1, (i.getNonce r).2.1, (i.getNonce r).2.2)

/-- Modelled from the spec: `wireEncode()` (`interest.cpp`, not available): the cached
wire if there is one; otherwise the packet is encoded and the result cached.  Returns
the wire, the object and the generator after the call. -/
def wireEncode (i : Interest) (r : RandomSource) : Bytes × Interest × RandomSource :=
  match i.m_wire with
  | some w => (w, i, r)
  | none =>
    ((i.wireEncodeImpl r).1,
      { (i.wireEncodeImpl r).2.1 with m_wire := some (i.wireEncodeImpl r).1 },
      (i.wireEncodeImpl r).2.2)

end Interest

/-- Modelled from the spec: a type number is critical when it is below 32 or odd; an
unknown critical element
must not be ignored. -/
def tlv.isCritical (t : Nat) : Bool := t < 32 || t % 2 == 1

namespace Interest

/-- Modelled from the spec: read the optional Selectors element; absent means all-neutral
selectors. -/
def readSelectors : Option Block → Option Selectors
  | none => some Selectors.default
  | some e => Selectors.wireDecode e

/-- Modelled from the spec: read the optional Nonce element: four octets. -/
def readNonce : Option Block → Option (Option Nat)
  | none => some none
  | some e => if e.value.length = 4 then some (some (tlv.fromBE e.value % 2 ^ 32)) else none

/-- Modelled from the spec: read the optional InterestLifetime element; absent means the
default. -/
def readLifetime : Option Block → Option Int
  | none => some DEFAULT_INTEREST_LIFETIME
  | some e => (tlv.readNonNegativeInteger e.value).map Int.ofNat

/-- Modelled from the spec: read the optional SelectedDelegation element; it is an error
without a Link. -/
def readSelectedDelegation : Option Block → Option Block → Option (Option Nat)
  | _, none => some none
  | none, some _ => none
  | some _, some e => (tlv.readNonNegativeInteger e.value).map some

/-- Modelled from the spec: the sub-elements of an Interest, taken in the strict order of
the schema: the Name
required, every other one optional; what is left over must be unknown and non-critical
and is ignored.  The decoded fields replace those of the object, and `wire` becomes the
cached wire. -/
def decodeElements (i : Interest) (wire : Bytes) : List Block → Option Interest
  | [] => none
  | eName :: rest =>
    let (eSel, r1) := Block.takeOpt tlv.Selectors rest
    let (eNonce, r2) := Block.takeOpt tlv.Nonce r1
    let (eLife, r3) := Block.takeOpt tlv.InterestLifetime r2
    let (eLink, r4) := Block.takeOpt tlv.Link r3
    let (eDel, r5) := Block.takeOpt tlv.SelectedDelegation r4
    match Name.wireDecode eName, readSelectors eSel, readNonce eNonce,
          readLifetime eLife, readSelectedDelegation eLink eDel,
          r5.all (fun e => !tlv.isCritical e.type && e.type != tlv.SelectedDelegation) with
    | some name, some sel, some nonce, some life, some del, true =>
      some { i with m_name := name, m_selectors := sel, m_nonce := nonce,
                    m_interestLifetime := life, m_link := eLink,
                    m_selectedDelegationIndex := del, m_wire := some wire }
    | _, _, _, _, _, _ => none

/-- Modelled from the spec: `wireDecode` (`interest.cpp`, not available): the buffer
must be exactly one element of type Interest (a truncated buffer, a length that does
not match, or octets left over are format errors), and its value must split into
sub-elements that follow the schema.  `none` is a format error. -/
def wireDecode (i : Interest) (wire : Bytes) : Option Interest :=
  match Block.fromBuffer wire with
  | some (outer, []) =>
    if outer.type = tlv.Interest then
      match Block.parse outer.value with
      | some els => decodeElements i wire els
      | none => none
    else none
  | _ => none

/-- Modelled from the spec: the constructor `Interest(wire)`: a fresh object decoded
from the wire. -/
def fromWire (wire : Bytes) : Option Interest :=
  (create [] DEFAULT_INTEREST_LIFETIME).wireDecode wire

/-! ## Equality (defined inline in the header) -/

/-- The Interest objects of a running program, by address.  `operator==` receives
`*this` and `other` by reference, and the two references may name the same object. -/
abbrev Objects := Nat → Interest

/-- The call `wireEncode()` through a reference: the object at `addr` is the one that
may get a nonce and a cached wire. -/
def wireEncodeAt (objs : Objects) (addr : Nat) (r : RandomSource) :
    Bytes × Objects × RandomSource :=
  (((objs addr).wireEncode r).1,
    Function.update objs addr ((objs addr).wireEncode r).2.1,
    ((objs addr).wireEncode r).2.2)

/-- The octets behind the `const Block&` that `wireEncode()` returns, read when the
comparison runs: the `m_wire` of the object (no octets for a block without wire). -/
def wireOf (i : Interest) : Bytes := i.m_wire.getD []

/-- The two calls `wireEncode()` and `other.wireEncode()` of `operator==`.  C++ leaves
the order of the two calls to the compiler; `otherFirst` says which one runs first. -/
def encodeOperands (otherFirst : Bool) (objs : Objects) (this other : Nat)
    (r : RandomSource) : Objects × RandomSource :=
  if otherFirst then
    (wireEncodeAt (wireEncodeAt objs other r).2.1 this (wireEncodeAt objs other r).2.2).2
  else
    (wireEncodeAt (wireEncodeAt objs this r).2.1 other (wireEncodeAt objs this r).2.2).2

/-- The result of `*this == other`, with the objects and the generator after the call:
both operands are encoded (which may assign a nonce and fill the cache), then the two
wires are compared octet by octet. -/
def operatorEq (otherFirst : Bool) (objs : Objects) (this other : Nat) (r : RandomSource) :
    Bool × Objects × RandomSource :=
  (Block.bytesEqual (wireOf ((encodeOperands otherFirst objs this other r).1 this))
      (wireOf ((encodeOperands otherFirst objs this other r).1 other)),
    encodeOperands otherFirst objs this other r)

/-- The result of `*this != other`: the negation of `*this == other`. -/
def operatorNe (otherFirst : Bool) (objs : Objects) (this other : Nat) (r : RandomSource) :
    Bool × Objects × RandomSource :=
  (!(operatorEq otherFirst objs this other r).1, (operatorEq otherFirst objs this other r).2)

/-! ## Link and selected delegation (declared in the header, defined in `interest.cpp`,
which is not available)

`link.hpp` is not available: the parser of a Link block into its delegation names is a
parameter `delegations` of the operations that need it; it answers `none` on a
malformed Link. -/

/-- Modelled from the spec: `hasLink` (not available): a Link block is stored. -/
def hasLink (i : Interest) : Bool := i.m_link.isSome

/-- Modelled from the spec: `hasSelectedDelegation` (not available): the index is not the
invalid one. -/
def hasSelectedDelegation (i : Interest) : Bool := i.m_selectedDelegationIndex.isSome

/-- Modelled from the spec: `setLink` (not available), after its contract in the
header (`@post !hasSelectedDelegation()`): the Link is stored unparsed, the wire is
reset and the selected delegation is cleared. -/
def setLink (i : Interest) (link : Block) : Interest :=
  { i with m_link := some link, m_selectedDelegationIndex := none, m_wire := none }

/-- Modelled from the spec: `unsetLink` (not available): the Link and the wire are
reset, and the selected delegation is cleared with them. -/
def unsetLink (i : Interest) : Interest :=
  { i with m_link := none, m_selectedDelegationIndex := none, m_wire := none }

/-- Modelled from the spec: `unsetSelectedDelegation` (not available). -/
def unsetSelectedDelegation (i : Interest) : Interest :=
  { i with m_selectedDelegationIndex := none, m_wire := none }

/-- Modelled from the spec: `setSelectedDelegation(size_t)` (not available), after its
contract in the header: an error when no Link is set, when the Link does not parse,
and when the index is out of bound; nothing is assigned before the throw. -/
def setSelectedDelegationByIndex (delegations : Block → Option (List Name))
    (i : Interest) (delegationIndex : Nat) : Outcome :=
  match i.m_link with
  | none => { error := some "Link is not set", state := i }
  | some l =>
    match delegations l with
    | none => { error := some "malformed Link", state := i }
    | some ds =>
      if delegationIndex < ds.length then
        { error := none,
          state := { i with m_selectedDelegationIndex := some delegationIndex,
                            m_wire := none } }
      else { error := some "Invalid selected delegation index", state := i }

/-- Modelled from the spec: the position of the first delegation with the given name. -/
def findDelegation (delegationName : Name) : List Name → Option Nat
  | [] => none
  | d :: ds =>
    if d = delegationName then some 0
    else (findDelegation delegationName ds).map (· + 1)

/-- Modelled from the spec: `setSelectedDelegation(const Name&)` (not available), after
its contract in the header: an error when no Link is set, when the Link does not parse,
and when the name is not among the delegations; otherwise the first delegation of that
name is selected. -/
def setSelectedDelegationByName (delegations : Block → Option (List Name))
    (i : Interest) (delegationName : Name) : Outcome :=
  match i.m_link with
  | none => { error := some "Link is not set", state := i }
  | some l =>
    match delegations l with
    | none => { error := some "malformed Link", state := i }
    | some ds =>
      match findDelegation delegationName ds with
      | some k =>
        { error := none,
          state := { i with m_selectedDelegationIndex := some k, m_wire := none } }
      | none => { error := some "Invalid selected delegation name", state := i }

/-- Modelled from the spec: `getSelectedDelegation` (not available): the name at the
selected index; `none` stands for the error thrown when nothing is selected. -/
def getSelectedDelegation (delegations : Block → Option (List Name)) (i : Interest) :
    Option Name :=
  match i.m_link, i.m_selectedDelegationIndex with
  | some l, some k => (delegations l).bind fun ds => ds.get? k
  | _, _ => none

/-- One call on the Link interface of an Interest. -/
inductive LinkOp where
  | setLink (link : Block)
  | unsetLink
  | setSelectedDelegationByName (delegationName : Name)
  | setSelectedDelegationByIndex (delegationIndex : Nat)
  | unsetSelectedDelegation
deriving DecidableEq, Repr

/-- The object after one call; a call that throws leaves what `Outcome.state` records. -/
def applyLinkOp (delegations : Block → Option (List Name)) (i : Interest) : LinkOp → Interest
  | .setLink link => i.setLink link
  | .unsetLink => i.unsetLink
  | .setSelectedDelegationByName n => (i.setSelectedDelegationByName delegations n).state
  | .setSelectedDelegationByIndex k => (i.setSelectedDelegationByIndex delegations k).state
  | .unsetSelectedDelegation => i.unsetSelectedDelegation

/-- The object after a sequence of calls, first to last. -/
def runLinkOps (delegations : Block → Option (List Name)) (i : Interest) (ops : List LinkOp) :
    Interest :=
  ops.foldl (applyLinkOp delegations) i

/-- The selected index, when there is one, points into the delegations of a present,
well-formed Link. -/
def SelectionInBounds (delegations : Block → Option (List Name)) (i : Interest) : Prop :=
  ∀ k, i.m_selectedDelegationIndex = some k →
    ∃ l ds, i.m_link = some l ∧ delegations l = some ds ∧ k < ds.length

/-- A sample Link parser: the value of the block is a run of Name elements. -/
def sampleDelegations (l : Block) : Option (List Name) :=
  match Block.parse l.value with
  | none => none
  | some els => els.mapM Name.wireDecode

end Interest

/-- Every element of the run has a type and a length that fit the 8-octet number form. -/
def Block.Sized (bs : List Block) : Prop :=
  ∀ b ∈ bs, b.type < 2 ^ 64 ∧ b.value.length < 2 ^ 64

/-- The selector integers lie in the range the wire can carry: `-1` (unset) or a
non-negative value below `2 ^ 64`. -/
def Selectors.InRange (s : Selectors) : Prop :=
  (-1 ≤ s.m_minSuffixComponents ∧ s.m_minSuffixComponents < 2 ^ 64) ∧
  (-1 ≤ s.m_maxSuffixComponents ∧ s.m_maxSuffixComponents < 2 ^ 64) ∧
  (-1 ≤ s.m_childSelector ∧ s.m_childSelector < 2 ^ 64)

namespace Interest

/-- A valid combination of field values, as far as the wire is concerned: selector
integers in range, a lifetime and a delegation index that fit a non-negative-integer
element, and a Link block that carries the Link type number. -/
def Encodable (i : Interest) : Prop :=
  i.m_selectors.InRange ∧ i.m_interestLifetime < 2 ^ 64 ∧
  (∀ l, i.m_link = some l → l.type = tlv.Link) ∧
  (∀ k, i.m_selectedDelegationIndex = some k → k < 2 ^ 64)

/-- A cached wire, when there is one, is the encoding of the current fields. -/
def CacheCoherent (i : Interest) : Prop :=
  ∀ w, i.m_wire = some w → ∃ n, i.m_nonce = some n ∧ w = i.encoding (n % 2 ^ 32)

/-- The lifetime after a trip over the wire: "none" and the default both come back as
the default. -/
def lifetimeOnWire (t : Int) : Int :=
  if 0 ≤ t ∧ t ≠ DEFAULT_INTEREST_LIFETIME then t else DEFAULT_INTEREST_LIFETIME

/-- The selected delegation after a trip over the wire: it travels only with a Link. -/
def selectedDelegationOnWire : Option Block → Option Nat → Option Nat
  | some _, k => k
  | none, _ => none

/-- The elements in front of the Nonce: the Name and, if present, the Selectors. -/
def elementsBeforeNonce (i : Interest) : List Block :=
  Name.wireEncode i.m_name :: (if i.hasSelectors then [i.m_selectors.wireEncode] else [])

/-- The elements behind the Nonce. -/
def elementsAfterNonce (i : Interest) : List Block :=
  lifetimeElement i.m_interestLifetime ++ linkElements i.m_link i.m_selectedDelegationIndex

/-- A Link block with the delegations `/x` and `/y`, in the sample format. -/
def sampleLink : Block :=
  ⟨tlv.Link, (Name.wireEncode [[120]]).wire ++ (Name.wireEncode [[121]]).wire⟩

/-- A sample Interest: name `/a/b`, lifetime 1234 ms, MaxSuffixComponents 2, an exclusion,
MustBeFresh, the sample Link and its second delegation selected; not yet encoded. -/
def sampleInterest : Interest :=
  (((((create [[97], [98]] 1234).setMaxSuffixComponents 2).setExclude [[99]]).setMustBeFresh
    true).setLink sampleLink).setSelectedDelegationByIndex sampleDelegations 1 |>.state

/-- A generator that hands out 7, 8, 9, ... -/
def sampleSource : RandomSource := ⟨fun k => 7 + k, 0⟩

/-- The Interest `/a` once encoded: its wire is cached and its nonce is the first word drawn. -/
def sampleEncoded : Interest :=
  ((create [[97]] DEFAULT_INTEREST_LIFETIME).wireEncode sampleSource).2.1

end Interest

/-! ## The forwarding tag (`utils/ndn-fw-from-tag.cpp`) -/

/-- Modelled from the spec: `ns3::TagBuffer` (`ns3/tag-buffer.h`, part of ns-3, is not
available, and the specification does not describe it); the model follows the
interface the tag uses.  A tag buffer is a cursor `m_current` into a byte region; the
region ends at `memory.length` (`m_end`). -/
structure TagBuffer where
  memory : List Nat
  m_current : Nat
deriving DecidableEq, Repr

namespace TagBuffer

/-- Modelled from the spec: `TagBuffer::WriteU8` (not available): store one octet at the
cursor and advance; `none` is the failed assertion `m_current + 1 <= m_end`. -/
def WriteU8 (b : TagBuffer) (v : Nat) : Option TagBuffer :=
  if b.m_current + 1 ≤ b.memory.length then
    some { memory := b.memory.set b.m_current (v % 2 ^ 8), m_current := b.m_current + 1 }
  else none

/-- Modelled from the spec: `TagBuffer::WriteU32` (not available): the four octets of the
word, least significant first. -/
def WriteU32 (b : TagBuffer) (data : Nat) : Option TagBuffer :=
  (((b.WriteU8 ((data >>> 0) &&& 0xff)).bind fun b1 =>
    b1.WriteU8 ((data >>> 8) &&& 0xff)).bind fun b2 =>
    b2.WriteU8 ((data >>> 16) &&& 0xff)).bind fun b3 =>
    b3.WriteU8 ((data >>> 24) &&& 0xff)

/-- Modelled from the spec: `TagBuffer::ReadU8` (not available): the octet at the cursor,
and the buffer with the cursor advanced; `none` is the failed assertion. -/
def ReadU8 (b : TagBuffer) : Option (Nat × TagBuffer) :=
  if b.m_current + 1 ≤ b.memory.length then
    some (b.memory.getD b.m_current 0 % 2 ^ 8, { b with m_current := b.m_current + 1 })
  else none

/-- Modelled from the spec: `TagBuffer::ReadU32` (not available): four octets, least
significant first, shifted and or-ed into a 32-bit word. -/
def ReadU32 (b : TagBuffer) : Option (Nat × TagBuffer) :=
  b.ReadU8.bind fun (byte0, b1) =>
  b1.ReadU8.bind fun (byte1, b2) =>
  b2.ReadU8.bind fun (byte2, b3) =>
  b3.ReadU8.bind fun (byte3, b4) =>
    some ((((((byte3 <<< 8) % 2 ^ 32 ||| byte2) <<< 8) % 2 ^ 32 ||| byte1) <<< 8) % 2 ^ 32
      ||| byte0, b4)

end TagBuffer

/-- The tag `ns3::ndn::FwFromTag`: one `uint32_t` identifier (the member is declared in
`ndn-fw-from-tag.hpp`, which is not available). -/
structure FwFromTag where
  m_frombSId : Nat
deriving DecidableEq, Repr

namespace FwFromTag

/-- The size `sizeof(uint32_t)`. -/
def GetSerializedSize (_t : FwFromTag) : Nat := 4

/-- Write the identifier with `WriteU32`.  The buffer is passed by value: the result is
the callee's buffer after the write, whose `memory` is the region the caller still
holds; `none` is a failed assertion inside `WriteU32`. -/
def Serialize (t : FwFromTag) (i : TagBuffer) : Option TagBuffer :=
  i.WriteU32 t.m_frombSId

/-- Read the identifier with `ReadU32` and store it. -/
def Deserialize (t : FwFromTag) (i : TagBuffer) : Option FwFromTag :=
  i.ReadU32.map fun p => { t with m_frombSId := p.1 }

end FwFromTag

/-! # Theorems -/

namespace tlv

theorem length_toBE (w n : Nat) : (toBE w n).length = w := by
  induction w with
  | zero => rfl
  | succ w ih => simp [toBE, ih]

theorem foldl_toBE (w n : Nat) : ∀ acc : Nat,
    (toBE w n).foldl (fun acc b => acc * 256 + b) acc = acc * 256 ^ w + n % 256 ^ w := by
  induction w with
  | zero => intro acc; simp [toBE, Nat.mod_one]
  | succ w ih =>
    intro acc
    simp only [toBE, List.foldl_cons, ih]
    rw [Nat.mod_pow_succ]
    ring

theorem fromBE_toBE (w n : Nat) : fromBE (toBE w n) = n % 256 ^ w := by
  simp [fromBE, foldl_toBE]

theorem readBE_toBE (w n : Nat) (rest : Bytes) :
    readBE w (toBE w n ++ rest) = some (n % 256 ^ w, rest) := by
  have hl := length_toBE w n
  unfold readBE
  rw [if_pos (by simp [hl]), List.take_left' hl, List.drop_left' hl, fromBE_toBE]

theorem readVarNumber_writeVarNumber (n : Nat) (rest : Bytes) (h : n < 2 ^ 64) :
    readVarNumber (writeVarNumber n ++ rest) = some (n, rest) := by
  unfold writeVarNumber
  by_cases h1 : n < 253
  · simp [h1, readVarNumber]
  · by_cases h2 : n < 2 ^ 16
    · simp only [h1, h2, if_false, if_true, List.cons_append, readVarNumber]
      simp only [show ¬ (253 < 253) by decide, if_false, if_true, readBE_toBE]
      rw [Nat.mod_eq_of_lt (by norm_num at h2 ⊢; omega)]
    · by_cases h3 : n < 2 ^ 32
      · simp only [h1, h2, h3, if_false, if_true, List.cons_append, readVarNumber]
        simp only [show ¬ (254 < 253) by decide, show ¬ (254 = 253) by decide, if_false, if_true,
          readBE_toBE]
        rw [Nat.mod_eq_of_lt (by norm_num at h3 ⊢; omega)]
      · simp only [h1, h2, h3, if_false, List.cons_append, readVarNumber]
        simp only [show ¬ (255 < 253) by decide, show ¬ (255 = 253) by decide,
          show ¬ (255 = 254) by decide, if_false, if_true, readBE_toBE]
        rw [Nat.mod_eq_of_lt (by norm_num at h ⊢; omega)]

theorem writeVarNumber_length_pos (n : Nat) : 0 < (writeVarNumber n).length := by
  unfold writeVarNumber
  split_ifs <;> simp

theorem readNonNegativeInteger_write (n : Nat) (h : n < 2 ^ 64) :
    readNonNegativeInteger (writeNonNegativeInteger n) = some n := by
  unfold writeNonNegativeInteger readNonNegativeInteger
  by_cases h1 : n < 2 ^ 8
  · simp only [h1, if_true, length_toBE, fromBE_toBE]
    rw [if_pos (by decide), Nat.mod_eq_of_lt (by norm_num at h1 ⊢; omega)]
  · by_cases h2 : n < 2 ^ 16
    · simp only [h1, h2, if_true, if_false, length_toBE, fromBE_toBE]
      rw [if_pos (by decide), Nat.mod_eq_of_lt (by norm_num at h2 ⊢; omega)]
    · by_cases h3 : n < 2 ^ 32
      · simp only [h1, h2, h3, if_true, if_false, length_toBE, fromBE_toBE]
        rw [if_pos (by decide), Nat.mod_eq_of_lt (by norm_num at h3 ⊢; omega)]
      · simp only [h1, h2, h3, if_false, length_toBE, fromBE_toBE]
        rw [if_pos (by decide), Nat.mod_eq_of_lt (by norm_num at h ⊢; omega)]

end tlv

namespace Block

theorem fromBuffer_wire (b : Block) (rest : Bytes) (ht : b.type < 2 ^ 64)
    (hl : b.value.length < 2 ^ 64) : fromBuffer (b.wire ++ rest) = some (b, rest) := by
  unfold fromBuffer wire
  rw [List.append_assoc, List.append_assoc, tlv.readVarNumber_writeVarNumber _ _ ht]
  simp only
  rw [tlv.readVarNumber_writeVarNumber _ _ hl]
  simp

theorem wire_length_pos (b : Block) : 0 < b.wire.length := by
  have := tlv.writeVarNumber_length_pos b.type
  simp [wire]; omega

theorem value_length_le_wire (b : Block) : b.value.length ≤ b.wire.length := by
  simp only [wire, List.length_append]; omega

theorem length_le_wires (bs : List Block) : bs.length ≤ (wires bs).length := by
  induction bs with
  | nil => simp [wires]
  | cons b bs ih =>
    have := wire_length_pos b
    simp [wires]; omega

theorem wire_length_le_wires (bs : List Block) (b : Block) (h : b ∈ bs) :
    b.wire.length ≤ (wires bs).length := by
  induction bs with
  | nil => simp at h
  | cons c bs ih =>
    simp only [wires, List.length_append]
    rcases List.mem_cons.mp h with rfl | h
    · omega
    · have := ih h; omega

theorem parseElements_wires (bs : List Block) (h : Sized bs) :
    ∀ fuel, bs.length ≤ fuel → parseElements fuel (wires bs) = some bs := by
  induction bs with
  | nil => intro fuel _; cases fuel <;> simp [wires, parseElements]
  | cons b bs ih =>
    intro fuel hf
    cases fuel with
    | zero => simp at hf
    | succ fuel =>
      have hb := h b (List.mem_cons_self _ _)
      have hbs : Sized bs := fun c hc => h c (List.mem_cons_of_mem _ hc)
      have hpos := wire_length_pos b
      simp only [wires]
      cases hw : b.wire ++ wires bs with
      | nil => simp at hw; simp [hw] at hpos
      | cons x xs =>
        simp only [parseElements]
        rw [← hw, fromBuffer_wire b _ hb.1 hb.2]
        simp only
        rw [ih hbs fuel (by simpa using hf)]
        rfl

theorem parse_wires (bs : List Block) (h : Sized bs) : parse (wires bs) = some bs :=
  parseElements_wires bs h _ (length_le_wires bs)

end Block

theorem tlv.readBE_length (w : Nat) (bs rest : Bytes) (n : Nat)
    (h : tlv.readBE w bs = some (n, rest)) : rest.length + w = bs.length := by
  unfold tlv.readBE at h
  split_ifs at h with hw
  simp only [Option.some.injEq, Prod.mk.injEq] at h
  rw [← h.2, List.length_drop]
  omega

theorem tlv.readVarNumber_length (bs rest : Bytes) (n : Nat)
    (h : tlv.readVarNumber bs = some (n, rest)) : rest.length < bs.length := by
  cases bs with
  | nil => simp [tlv.readVarNumber] at h
  | cons b bs =>
    simp only [tlv.readVarNumber] at h
    split_ifs at h
    · simp only [Option.some.injEq, Prod.mk.injEq] at h
      rw [← h.2]; simp
    · have := tlv.readBE_length _ _ _ _ h; simp; omega
    · have := tlv.readBE_length _ _ _ _ h; simp; omega
    · have := tlv.readBE_length _ _ _ _ h; simp; omega

theorem Block.fromBuffer_length (bs rest : Bytes) (e : Block)
    (h : Block.fromBuffer bs = some (e, rest)) : rest.length + 2 ≤ bs.length := by
  unfold Block.fromBuffer at h
  cases h1 : tlv.readVarNumber bs with
  | none => simp [h1] at h
  | some p1 =>
    obtain ⟨t, r1⟩ := p1
    cases h2 : tlv.readVarNumber r1 with
    | none => simp [h1, h2] at h
    | some p2 =>
      obtain ⟨len, r2⟩ := p2
      simp only [h1, h2] at h
      split_ifs at h
      simp only [Option.some.injEq, Prod.mk.injEq] at h
      have l1 := tlv.readVarNumber_length _ _ _ h1
      have l2 := tlv.readVarNumber_length _ _ _ h2
      rw [← h.2, List.length_drop]
      omega

/-- The length of the value is fuel enough for `Block.parse`: more fuel never changes
the result. -/
theorem Block.parseElements_fuel (fuel : Nat) :
    ∀ bs : Bytes, bs.length ≤ fuel →
      Block.parseElements fuel bs = Block.parseElements bs.length bs := by
  induction fuel using Nat.strong_induction_on with
  | _ fuel ih =>
    intro bs hlen
    cases bs with
    | nil => cases fuel <;> simp [Block.parseElements]
    | cons b bs =>
      cases fuel with
      | zero => simp at hlen
      | succ fuel =>
        simp only [List.length_cons, Block.parseElements]
        cases hf : Block.fromBuffer (b :: bs) with
        | none => rfl
        | some p =>
          obtain ⟨e, rest⟩ := p
          have hl := Block.fromBuffer_length _ _ _ hf
          simp only [List.length_cons] at hl
          simp only
          rw [ih fuel (by omega) rest (by simp at hlen; omega),
            ih bs.length (by simp at hlen; omega) rest (by omega)]

theorem Block.sized_of_wires_length (bs : List Block) (ht : ∀ b ∈ bs, b.type < 2 ^ 64)
    (h : (Block.wires bs).length < 2 ^ 64) : Block.Sized bs := by
  intro b hb
  refine ⟨ht b hb, ?_⟩
  have h1 := Block.wire_length_le_wires bs b hb
  have h2 := Block.value_length_le_wire b
  omega

theorem Block.parse_components (cs : List Component)
    (h : (Block.wires (cs.map fun c => ⟨tlv.NameComponent, c⟩)).length < 2 ^ 64) :
    Block.parse (Block.wires (cs.map fun c => ⟨tlv.NameComponent, c⟩)) =
      some (cs.map fun c => ⟨tlv.NameComponent, c⟩) := by
  apply Block.parse_wires
  apply Block.sized_of_wires_length _ _ h
  intro b hb
  simp only [List.mem_map] at hb
  obtain ⟨c, _, rfl⟩ := hb
  norm_num

theorem Name.name_wireDecode_wireEncode (n : Name)
    (h : (Name.wireEncode n).value.length < 2 ^ 64) :
    Name.wireDecode (Name.wireEncode n) = some n := by
  unfold Name.wireDecode
  simp only [Name.wireEncode] at h ⊢
  rw [if_pos trivial, Block.parse_components n h]
  simp [Function.comp_def]

theorem Selectors.readExclude_exclude (e : Exclude)
    (h : (Block.wires (e.map fun c => ⟨tlv.NameComponent, c⟩)).length < 2 ^ 64) :
    Selectors.readExclude
      (some ⟨tlv.Exclude, Block.wires (e.map fun c => ⟨tlv.NameComponent, c⟩)⟩) = some e := by
  unfold Selectors.readExclude
  simp only
  rw [Block.parse_components e h]
  simp [Function.comp_def]

theorem Selectors.readInt_intElement (t : Nat) (v : Int) (h0 : 0 ≤ v) (h1 : v < 2 ^ 64) :
    Selectors.readInt (some ⟨t, tlv.writeNonNegativeInteger v.toNat⟩) = some v := by
  unfold Selectors.readInt
  simp only
  rw [tlv.readNonNegativeInteger_write _ (by omega)]
  simp [Int.toNat_of_nonneg h0]

theorem Selectors.selector_elements_types (s : Selectors) : ∀ b ∈ s.elements, b.type < 2 ^ 64 := by
  intro b hb
  simp only [Selectors.elements, Selectors.intElement, List.mem_append] at hb
  rcases hb with ((((hb | hb) | hb) | hb) | hb) | hb <;>
    · split_ifs at hb <;> simp at hb
      all_goals (subst hb; norm_num)

theorem Selectors.selectors_wireDecode_wireEncode (s : Selectors) (hr : s.InRange)
    (h : (Selectors.wireEncode s).value.length < 2 ^ 64) :
    Selectors.wireDecode (Selectors.wireEncode s) = some s := by
  obtain ⟨⟨hmin0, hmin1⟩, ⟨hmax0, hmax1⟩, ⟨hch0, hch1⟩⟩ := hr
  have hsz : Block.Sized s.elements :=
    Block.sized_of_wires_length _ (Selectors.selector_elements_types s) h
  have hexc : s.m_exclude ≠ [] →
      (Block.wires (s.m_exclude.map fun c => ⟨tlv.NameComponent, c⟩)).length < 2 ^ 64 := by
    intro hne
    have := (hsz ⟨tlv.Exclude, Block.wires (s.m_exclude.map fun c => ⟨tlv.NameComponent, c⟩)⟩
      (by simp [Selectors.elements, hne])).2
    exact this
  obtain ⟨vmin, vmax, key, exc, child, fresh⟩ := s
  simp only at hmin0 hmin1 hmax0 hmax1 hch0 hch1 hexc
  have kmin : vmin ≠ -1 → Selectors.readInt
      (some ⟨tlv.MinSuffixComponents, tlv.writeNonNegativeInteger vmin.toNat⟩) = some vmin :=
    fun hne => Selectors.readInt_intElement _ _ (by omega) hmin1
  have kmax : vmax ≠ -1 → Selectors.readInt
      (some ⟨tlv.MaxSuffixComponents, tlv.writeNonNegativeInteger vmax.toNat⟩) = some vmax :=
    fun hne => Selectors.readInt_intElement _ _ (by omega) hmax1
  have kch : child ≠ -1 → Selectors.readInt
      (some ⟨tlv.ChildSelector, tlv.writeNonNegativeInteger child.toNat⟩) = some child :=
    fun hne => Selectors.readInt_intElement _ _ (by omega) hch1
  have kexc : exc ≠ [] → Selectors.readExclude
      (some ⟨tlv.Exclude, Block.wires (exc.map fun c => ⟨tlv.NameComponent, c⟩)⟩) = some exc :=
    fun hne => Selectors.readExclude_exclude exc (hexc hne)
  have knone : Selectors.readInt none = some (-1) := rfl
  have kenone : Selectors.readExclude none = some [] := rfl
  unfold Selectors.wireDecode
  simp only [Selectors.wireEncode, if_true]
  rw [Block.parse_wires _ hsz]
  simp only [Selectors.elements, Selectors.intElement]
  generalize tlv.writeNonNegativeInteger vmin.toNat = a1 at *
  generalize tlv.writeNonNegativeInteger vmax.toNat = a2 at *
  generalize tlv.writeNonNegativeInteger child.toNat = a3 at *
  generalize Block.wires (exc.map fun c => ⟨tlv.NameComponent, c⟩) = a4 at *
  by_cases c1 : vmin = -1 <;> by_cases c2 : vmax = -1 <;> by_cases c3 : key = [] <;>
    by_cases c4 : exc = [] <;> by_cases c5 : child = -1 <;> cases fresh <;>
    simp only [c1, c2, c3, c4, c5, if_true, if_false, Block.takeOpt, List.nil_append,
      List.cons_append, List.append_nil, knone, kenone, kmin, kmax, kch, kexc, ne_eq,
      not_false_eq_true, not_true_eq_false, Bool.false_eq_true,
      tlv.MinSuffixComponents, tlv.MaxSuffixComponents, tlv.KeyLocator, tlv.Exclude,
      tlv.ChildSelector, tlv.MustBeFresh, Nat.reduceEqDiff, Option.map_some', Option.map_none',
      Option.getD_some, Option.getD_none, Option.isSome_some, Option.isSome_none, reduceCtorEq]

theorem Block.take_header (a b : Bytes) : (a ++ b).take ((a ++ b).length - b.length) = a := by
  simp

theorem Block.patchNonce_skip (new : Bytes) (b : Block) (rest : Bytes) (fuel : Nat)
    (ht : b.type < 2 ^ 64) (hl : b.value.length < 2 ^ 64)
    (hne : ¬ (b.type = tlv.Nonce ∧ b.value.length = 4)) :
    Block.patchNonce new (fuel + 1) (b.wire ++ rest) =
      b.wire ++ Block.patchNonce new fuel rest := by
  have e1 : b.wire ++ rest =
      tlv.writeVarNumber b.type ++ (tlv.writeVarNumber b.value.length ++ (b.value ++ rest)) := by
    simp [Block.wire]
  have e2 : b.wire ++ rest =
      (tlv.writeVarNumber b.type ++ tlv.writeVarNumber b.value.length) ++ (b.value ++ rest) := by
    simp [Block.wire]
  rw [Block.patchNonce]
  rw [e1, tlv.readVarNumber_writeVarNumber _ _ ht]
  simp only
  rw [tlv.readVarNumber_writeVarNumber _ _ hl]
  simp only
  rw [if_neg hne, ← e1, e2, Block.take_header]
  simp [Block.wire]

theorem Block.patchNonce_hit (new old rest : Bytes) (fuel : Nat) (hold : old.length = 4)
    (hnew : new.length = 4) :
    Block.patchNonce new (fuel + 1) ((Block.mk tlv.Nonce old).wire ++ rest) =
      (Block.mk tlv.Nonce new).wire ++ rest := by
  have e1 : (Block.mk tlv.Nonce old).wire ++ rest =
      tlv.writeVarNumber tlv.Nonce ++ (tlv.writeVarNumber old.length ++ (old ++ rest)) := by
    simp [Block.wire]
  have e2 : (Block.mk tlv.Nonce old).wire ++ rest =
      (tlv.writeVarNumber tlv.Nonce ++ tlv.writeVarNumber old.length) ++ (old ++ rest) := by
    simp [Block.wire]
  rw [Block.patchNonce]
  rw [e1, tlv.readVarNumber_writeVarNumber _ _ (by norm_num)]
  simp only
  rw [tlv.readVarNumber_writeVarNumber _ _ (by rw [hold]; norm_num)]
  simp only
  rw [if_pos ⟨trivial, hold⟩, ← e1, e2, Block.take_header, ← hold, List.drop_left]
  simp [Block.wire, hold, hnew]

theorem Block.patchNonce_wires (new old rest : Bytes) (hold : old.length = 4)
    (hnew : new.length = 4) (pre : List Block) (hsz : Block.Sized pre)
    (hpre : ∀ b ∈ pre, b.type ≠ tlv.Nonce) :
    ∀ fuel, pre.length < fuel →
      Block.patchNonce new fuel (Block.wires pre ++ ((Block.mk tlv.Nonce old).wire ++ rest)) =
        Block.wires pre ++ ((Block.mk tlv.Nonce new).wire ++ rest) := by
  induction pre with
  | nil =>
    intro fuel hf
    cases fuel with
    | zero => omega
    | succ fuel => simpa [Block.wires] using Block.patchNonce_hit new old rest fuel hold hnew
  | cons b pre ih =>
    intro fuel hf
    cases fuel with
    | zero => omega
    | succ fuel =>
      have hb := hsz b (List.mem_cons_self _ _)
      have hbn := hpre b (List.mem_cons_self _ _)
      simp only [Block.wires, List.append_assoc]
      rw [Block.patchNonce_skip new b _ fuel hb.1 hb.2 (fun h => hbn h.1)]
      rw [ih (fun c hc => hsz c (List.mem_cons_of_mem _ hc))
        (fun c hc => hpre c (List.mem_cons_of_mem _ hc)) fuel (by simpa using hf)]

theorem Block.wires_append (xs ys : List Block) :
    Block.wires (xs ++ ys) = Block.wires xs ++ Block.wires ys := by
  induction xs with
  | nil => rfl
  | cons x xs ih => simp [Block.wires, ih]

theorem Block.bytesEqual_iff (x y : Bytes) : Block.bytesEqual x y = true ↔ x = y := by
  induction x generalizing y with
  | nil => cases y <;> simp [Block.bytesEqual]
  | cons a xs ih => cases y with
    | nil => simp [Block.bytesEqual]
    | cons b ys => simp [Block.bytesEqual, ih]

namespace Interest


theorem wireEncode_cached (i : Interest) (r : RandomSource) :
    (i.wireEncode r).2.1.m_wire = some (i.wireEncode r).1 := by
  unfold wireEncode
  cases h : i.m_wire <;> simp [h]

theorem wireEncode_again (i : Interest) (r r2 : RandomSource) :
    ((i.wireEncode r).2.1.wireEncode r2).1 = (i.wireEncode r).1 := by
  have h := wireEncode_cached i r
  generalize (i.wireEncode r).2.1 = j at h
  simp [wireEncode, h]

theorem wireEncode_of_cached (i : Interest) (w : Bytes) (r : RandomSource)
    (h : i.m_wire = some w) : i.wireEncode r = (w, i, r) := by
  simp [wireEncode, h]

theorem wireEncode_keeps_wire (i : Interest) (w : Bytes) (r : RandomSource)
    (h : i.m_wire = some w) : (i.wireEncode r).2.1.m_wire = some w := by
  rw [wireEncode_of_cached i w r h]; exact h

theorem wireEncode_twice (i : Interest) (r r2 : RandomSource) :
    ((i.wireEncode r).2.1.wireEncode r2).2.1 = (i.wireEncode r).2.1 := by
  rw [wireEncode_of_cached _ _ r2 (wireEncode_cached i r)]

theorem wireOf_wireEncode (i : Interest) (r : RandomSource) :
    wireOf (i.wireEncode r).2.1 = (i.wireEncode r).1 := by
  simp [wireOf, wireEncode_cached]

/-- What the two calls leave behind, whatever their order: each operand is the result of
its own `wireEncode()`, and every other object is untouched. -/
theorem encodeOperands_spec (otherFirst : Bool) (objs : Objects) (a b : Nat)
    (r : RandomSource) :
    ∃ ra rb,
      (encodeOperands otherFirst objs a b r).1 a = ((objs a).wireEncode ra).2.1 ∧
      (encodeOperands otherFirst objs a b r).1 b = ((objs b).wireEncode rb).2.1 ∧
      ∀ c, c ≠ a → c ≠ b → (encodeOperands otherFirst objs a b r).1 c = objs c := by
  by_cases hab : a = b
  · subst hab
    refine ⟨r, r, ?_, ?_, ?_⟩ <;> cases otherFirst <;>
      simp [encodeOperands, wireEncodeAt, wireEncode_twice, Function.update]
    all_goals (intro c hc; simp [hc])
  · have hba : b ≠ a := fun h => hab h.symm
    cases otherFirst
    · refine ⟨r, ((objs a).wireEncode r).2.2, ?_, ?_, ?_⟩
      · simp [encodeOperands, wireEncodeAt, Function.update, hab]
      · simp [encodeOperands, wireEncodeAt, Function.update, hba]
      · intro c hca hcb
        simp [encodeOperands, wireEncodeAt, Function.update, hca, hcb]
    · refine ⟨((objs b).wireEncode r).2.2, r, ?_, ?_, ?_⟩
      · simp [encodeOperands, wireEncodeAt, Function.update, hab]
      · simp [encodeOperands, wireEncodeAt, Function.update, hba]
      · intro c hca hcb
        simp [encodeOperands, wireEncodeAt, Function.update, hca, hcb]

/-- Claim C1: for every pair of operands, two objects or one object named twice, and
for either order of the two `wireEncode()` calls: `a == b` is true exactly when the wire
encoding of `a` is octet-for-octet the wire encoding of `b`, and `a != b` is the
negation of `a == b`.  The wire encoding of an operand is what its own `wireEncode()`
returned in this evaluation; it is the wire the operand keeps cached, so every later
`wireEncode()` returns it again; an operand that was already encoded keeps its wire.
An object compared with itself is equal; no other object is touched. -/
theorem operatorEq_iff_wire_bytes_equal (otherFirst : Bool) (objs : Objects) (a b : Nat)
    (r : RandomSource) :
    (∃ ra rb,
      (operatorEq otherFirst objs a b r).2.1 a = ((objs a).wireEncode ra).2.1 ∧
      (operatorEq otherFirst objs a b r).2.1 b = ((objs b).wireEncode rb).2.1 ∧
      ((operatorEq otherFirst objs a b r).1 = true ↔
        ((objs a).wireEncode ra).1 = ((objs b).wireEncode rb).1)) ∧
    (∀ r2 r3, (operatorEq otherFirst objs a b r).1 = true ↔
      (((operatorEq otherFirst objs a b r).2.1 a).wireEncode r2).1 =
        (((operatorEq otherFirst objs a b r).2.1 b).wireEncode r3).1) ∧
    ((operatorEq otherFirst objs a b r).2.1 a).hasWire = true ∧
    ((operatorEq otherFirst objs a b r).2.1 b).hasWire = true ∧
    (∀ w, (objs a).m_wire = some w →
      ((operatorEq otherFirst objs a b r).2.1 a).m_wire = some w) ∧
    (∀ w, (objs b).m_wire = some w →
      ((operatorEq otherFirst objs a b r).2.1 b).m_wire = some w) ∧
    (a = b → (operatorEq otherFirst objs a b r).1 = true) ∧
    (∀ c, c ≠ a → c ≠ b → (operatorEq otherFirst objs a b r).2.1 c = objs c) ∧
    (operatorNe otherFirst objs a b r).1 = !(operatorEq otherFirst objs a b r).1 ∧
    (operatorNe otherFirst objs a b r).2 = (operatorEq otherFirst objs a b r).2 := by
  obtain ⟨ra, rb, ha, hb, hc⟩ := encodeOperands_spec otherFirst objs a b r
  have hres : (operatorEq otherFirst objs a b r).1 = true ↔
      ((objs a).wireEncode ra).1 = ((objs b).wireEncode rb).1 := by
    simp only [operatorEq, ha, hb, wireOf_wireEncode, Block.bytesEqual_iff]
  refine ⟨⟨ra, rb, ha, hb, hres⟩, ?_, ?_, ?_, ?_, ?_, ?_, hc, rfl, rfl⟩
  · intro r2 r3
    rw [hres]
    show _ ↔ (((encodeOperands otherFirst objs a b r).1 a).wireEncode r2).1 =
      (((encodeOperands otherFirst objs a b r).1 b).wireEncode r3).1
    rw [ha, hb, wireEncode_again, wireEncode_again]
  · show ((encodeOperands otherFirst objs a b r).1 a).hasWire = true
    rw [ha]; simp [hasWire, wireEncode_cached]
  · show ((encodeOperands otherFirst objs a b r).1 b).hasWire = true
    rw [hb]; simp [hasWire, wireEncode_cached]
  · intro w hw
    show ((encodeOperands otherFirst objs a b r).1 a).m_wire = some w
    rw [ha]; exact wireEncode_keeps_wire _ w ra hw
  · intro w hw
    show ((encodeOperands otherFirst objs a b r).1 b).m_wire = some w
    rw [hb]; exact wireEncode_keeps_wire _ w rb hw
  · intro hab
    subst hab
    simp [operatorEq, Block.bytesEqual_iff]

/-- Examples for C1: the unencoded Interest `/a` equals itself under either call order;
two distinct unencoded objects `/a` draw different nonces and differ; with the same
nonce set they are equal. -/
theorem operatorEq_examples :
    (operatorEq false (fun _ => create [[97]] DEFAULT_INTEREST_LIFETIME) 0 0 sampleSource).1
      = true ∧
    (operatorEq true (fun _ => create [[97]] DEFAULT_INTEREST_LIFETIME) 0 0 sampleSource).1
      = true ∧
    (operatorNe false (fun _ => create [[97]] DEFAULT_INTEREST_LIFETIME) 0 0 sampleSource).1
      = false ∧
    (operatorEq false (fun _ => create [[97]] DEFAULT_INTEREST_LIFETIME) 0 1 sampleSource).1
      = false ∧
    (operatorEq true (fun _ => create [[97]] DEFAULT_INTEREST_LIFETIME) 0 1 sampleSource).1
      = false ∧
    (operatorEq false (fun _ => (create [[97]] DEFAULT_INTEREST_LIFETIME).setNonce 3) 0 1
      sampleSource).1 = true := by
  decide

/-- Claim C2: whatever the state of the Interest (cached or not) and whatever the
argument, each wire-significant setter the header defines leaves `hasWire()` false. -/
theorem wire_significant_setters_reset_wire (i : Interest) (name : Name) (lifetime : Int)
    (selectors : Selectors) (minSuffix maxSuffix childSelector : Int) (keyLocator : KeyLocator)
    (exclude : Exclude) (mustBeFresh : Bool) :
    (i.setName name).hasWire = false ∧
    (i.setInterestLifetime lifetime).hasWire = false ∧
    (i.setSelectors selectors).hasWire = false ∧
    (i.setMinSuffixComponents minSuffix).hasWire = false ∧
    (i.setMaxSuffixComponents maxSuffix).hasWire = false ∧
    (i.setPublisherPublicKeyLocator keyLocator).hasWire = false ∧
    (i.setExclude exclude).hasWire = false ∧
    (i.setChildSelector childSelector).hasWire = false ∧
    (i.setMustBeFresh mustBeFresh).hasWire = false :=
  ⟨rfl, rfl, rfl, rfl, rfl, rfl, rfl, rfl, rfl⟩

/-- Claim C3: `setIncomingFaceId` and `setNextHopFaceId` leave `hasWire()` and the cached
wire as they were, and leave name, selectors, nonce, lifetime, Link, selected
delegation index and the special-interest and trace members untouched; only the face
identifier addressed changes. -/
theorem face_id_setters_keep_wire_and_fields (i : Interest) (faceId : Nat) :
    ((i.setIncomingFaceId faceId).hasWire = i.hasWire ∧
      (i.setIncomingFaceId faceId).m_wire = i.m_wire ∧
      (i.setIncomingFaceId faceId).m_name = i.m_name ∧
      (i.setIncomingFaceId faceId).m_selectors = i.m_selectors ∧
      (i.setIncomingFaceId faceId).m_nonce = i.m_nonce ∧
      (i.setIncomingFaceId faceId).m_interestLifetime = i.m_interestLifetime ∧
      (i.setIncomingFaceId faceId).m_link = i.m_link ∧
      (i.setIncomingFaceId faceId).m_selectedDelegationIndex = i.m_selectedDelegationIndex ∧
      (i.setIncomingFaceId faceId).m_specialInterestType = i.m_specialInterestType ∧
      (i.setIncomingFaceId faceId).m_specialInterestSequenceNumber =
        i.m_specialInterestSequenceNumber ∧
      (i.setIncomingFaceId faceId).m_traceForwardingFlag = i.m_traceForwardingFlag ∧
      (i.setIncomingFaceId faceId).m_traceName = i.m_traceName ∧
      (i.setIncomingFaceId faceId).getNextHopFaceId = i.getNextHopFaceId ∧
      (i.setIncomingFaceId faceId).getIncomingFaceId = faceId % 2 ^ 64) ∧
    ((i.setNextHopFaceId faceId).hasWire = i.hasWire ∧
      (i.setNextHopFaceId faceId).m_wire = i.m_wire ∧
      (i.setNextHopFaceId faceId).m_name = i.m_name ∧
      (i.setNextHopFaceId faceId).m_selectors = i.m_selectors ∧
      (i.setNextHopFaceId faceId).m_nonce = i.m_nonce ∧
      (i.setNextHopFaceId faceId).m_interestLifetime = i.m_interestLifetime ∧
      (i.setNextHopFaceId faceId).m_link = i.m_link ∧
      (i.setNextHopFaceId faceId).m_selectedDelegationIndex = i.m_selectedDelegationIndex ∧
      (i.setNextHopFaceId faceId).m_specialInterestType = i.m_specialInterestType ∧
      (i.setNextHopFaceId faceId).m_specialInterestSequenceNumber =
        i.m_specialInterestSequenceNumber ∧
      (i.setNextHopFaceId faceId).m_traceForwardingFlag = i.m_traceForwardingFlag ∧
      (i.setNextHopFaceId faceId).m_traceName = i.m_traceName ∧
      (i.setNextHopFaceId faceId).getIncomingFaceId = i.getIncomingFaceId ∧
      (i.setNextHopFaceId faceId).getNextHopFaceId = faceId % 2 ^ 64) :=
  ⟨⟨rfl, rfl, rfl, rfl, rfl, rfl, rfl, rfl, rfl, rfl, rfl, rfl, rfl, rfl⟩,
   ⟨rfl, rfl, rfl, rfl, rfl, rfl, rfl, rfl, rfl, rfl, rfl, rfl, rfl, rfl⟩⟩

/-- Claim C4: `setAsSpecialInterest(type, sequenceNumber)` throws exactly when
`sequenceNumber < -1`; when it throws the object is unchanged (type, sequence number and
wire cache included); otherwise the getters return the supplied values and `hasWire()`
is false. -/
theorem setAsSpecialInterest_fails_iff_below_floor (i : Interest) (type : Nat)
    (sequenceNumber : Int) :
    (((i.setAsSpecialInterest type sequenceNumber).error.isSome = true) ↔ sequenceNumber < -1) ∧
    (if sequenceNumber < -1 then
      (i.setAsSpecialInterest type sequenceNumber).state = i
    else
      (i.setAsSpecialInterest type sequenceNumber).error = none ∧
      (i.setAsSpecialInterest type sequenceNumber).state.getSpecialInterestType = type ∧
      (i.setAsSpecialInterest type sequenceNumber).state.getSequenceNumber = sequenceNumber ∧
      (i.setAsSpecialInterest type sequenceNumber).state.hasWire = false ∧
      (i.setAsSpecialInterest type sequenceNumber).state =
        { i with m_specialInterestType := type,
                 m_specialInterestSequenceNumber := sequenceNumber, m_wire := none }) := by
  unfold setAsSpecialInterest
  by_cases h : sequenceNumber < -1
  · simp [h]
  · simp [h, getSpecialInterestType, getSequenceNumber, hasWire]

/-- Claim C10: after `setName(n)`, `getName()` is `n` and selectors, nonce, lifetime, Link,
selected delegation index, special-interest and trace fields and local control header
are unchanged; after `setInterestLifetime(t)`, `getInterestLifetime()` is `t` and every
field other than the lifetime and the wire cache is unchanged. -/
theorem setName_setInterestLifetime_frame (i : Interest) (n : Name) (t : Int) :
    ((i.setName n).getName = n ∧
      (i.setName n).m_selectors = i.m_selectors ∧
      (i.setName n).m_nonce = i.m_nonce ∧
      (i.setName n).m_interestLifetime = i.m_interestLifetime ∧
      (i.setName n).m_link = i.m_link ∧
      (i.setName n).m_selectedDelegationIndex = i.m_selectedDelegationIndex ∧
      (i.setName n).m_specialInterestType = i.m_specialInterestType ∧
      (i.setName n).m_specialInterestSequenceNumber = i.m_specialInterestSequenceNumber ∧
      (i.setName n).m_traceForwardingFlag = i.m_traceForwardingFlag ∧
      (i.setName n).m_traceName = i.m_traceName ∧
      (i.setName n).m_localControlHeader = i.m_localControlHeader) ∧
    ((i.setInterestLifetime t).getInterestLifetime = t ∧
      (i.setInterestLifetime t).m_name = i.m_name ∧
      (i.setInterestLifetime t).m_selectors = i.m_selectors ∧
      (i.setInterestLifetime t).m_nonce = i.m_nonce ∧
      (i.setInterestLifetime t).m_link = i.m_link ∧
      (i.setInterestLifetime t).m_selectedDelegationIndex = i.m_selectedDelegationIndex ∧
      (i.setInterestLifetime t).m_specialInterestType = i.m_specialInterestType ∧
      (i.setInterestLifetime t).m_specialInterestSequenceNumber =
        i.m_specialInterestSequenceNumber ∧
      (i.setInterestLifetime t).m_traceForwardingFlag = i.m_traceForwardingFlag ∧
      (i.setInterestLifetime t).m_traceName = i.m_traceName ∧
      (i.setInterestLifetime t).m_localControlHeader = i.m_localControlHeader) :=
  ⟨⟨rfl, rfl, rfl, rfl, rfl, rfl, rfl, rfl, rfl, rfl, rfl⟩,
    ⟨rfl, rfl, rfl, rfl, rfl, rfl, rfl, rfl, rfl, rfl, rfl⟩⟩

theorem selectors_eq_default_of_empty (s : Selectors) (h : s.empty = true) :
    s = Selectors.default := by
  obtain ⟨a, b, c, d, e, f⟩ := s
  simp [Selectors.empty] at h
  obtain ⟨⟨⟨⟨⟨h1, h2⟩, h3⟩, h4⟩, h5⟩, h6⟩ := h
  simp [Selectors.default, h1, h2, h3, h4, h5, h6]

theorem elements_types (i : Interest) (n : Nat)
    (hl : ∀ l, i.m_link = some l → l.type = tlv.Link) :
    ∀ b ∈ i.elements n, b.type < 2 ^ 64 := by
  intro b hb
  simp only [elements, List.mem_cons, List.mem_append] at hb
  rcases hb with rfl | hb | rfl | hb | hb
  · simp [Name.wireEncode, tlv.Name]
  · split_ifs at hb <;> simp at hb
    subst hb; simp [Selectors.wireEncode, tlv.Selectors]
  · norm_num
  · unfold lifetimeElement at hb
    split_ifs at hb <;> simp at hb
    subst hb; norm_num
  · cases hlk : i.m_link with
    | none => simp [hlk, linkElements] at hb
    | some l =>
      have hty := hl l hlk
      cases hs : i.m_selectedDelegationIndex with
      | none =>
        simp [hlk, hs, linkElements] at hb
        subst hb; rw [hty]; norm_num
      | some k =>
        simp [hlk, hs, linkElements] at hb
        rcases hb with rfl | rfl
        · rw [hty]; norm_num
        · norm_num

theorem readNonce_toBE (n : Nat) (hn : n < 2 ^ 32) :
    readNonce (some ⟨tlv.Nonce, tlv.toBE 4 n⟩) = some (some n) := by
  unfold readNonce
  simp only [tlv.length_toBE, if_true, tlv.fromBE_toBE]
  have h1 : n % 256 ^ 4 = n := Nat.mod_eq_of_lt (by norm_num at hn ⊢; omega)
  rw [h1, Nat.mod_eq_of_lt hn]

theorem readLifetime_element (t : Int) (h0 : 0 ≤ t) (h1 : t < 2 ^ 64) :
    readLifetime (some ⟨tlv.InterestLifetime, tlv.writeNonNegativeInteger t.toNat⟩) = some t := by
  unfold readLifetime
  simp only
  rw [tlv.readNonNegativeInteger_write _ (by omega)]
  simp [Int.toNat_of_nonneg h0]

theorem readSelectedDelegation_element (l : Block) (k : Nat) (h : k < 2 ^ 64) :
    readSelectedDelegation (some l)
      (some ⟨tlv.SelectedDelegation, tlv.writeNonNegativeInteger k⟩) = some (some k) := by
  unfold readSelectedDelegation
  simp only
  rw [tlv.readNonNegativeInteger_write _ h]
  rfl

theorem decodeElements_elements (i0 i : Interest) (n : Nat) (bytes : Bytes) (hn : n < 2 ^ 32)
    (hv : i.Encodable) (hsz : Block.Sized (i.elements n)) :
    i0.decodeElements bytes (i.elements n) =
      some { i0 with m_name := i.m_name, m_selectors := i.m_selectors, m_nonce := some n,
                     m_interestLifetime := lifetimeOnWire i.m_interestLifetime,
                     m_link := i.m_link,
                     m_selectedDelegationIndex :=
                       selectedDelegationOnWire i.m_link i.m_selectedDelegationIndex,
                     m_wire := some bytes } := by
  obtain ⟨hsel, hlife, hlink, hdel⟩ := hv
  have kname : Name.wireDecode (Name.wireEncode i.m_name) = some i.m_name :=
    Name.name_wireDecode_wireEncode _ (hsz _ (by simp [elements])).2
  have ksel : i.m_selectors.empty = false →
      readSelectors (some i.m_selectors.wireEncode) = some i.m_selectors := by
    intro hs
    exact Selectors.selectors_wireDecode_wireEncode _ hsel (hsz _ (by simp [elements, hasSelectors, hs])).2
  have ksel0 : i.m_selectors.empty = true → i.m_selectors = Selectors.default :=
    selectors_eq_default_of_empty _
  have knonce := readNonce_toBE n hn
  have klife : (0 ≤ i.m_interestLifetime ∧ i.m_interestLifetime ≠ DEFAULT_INTEREST_LIFETIME) →
      readLifetime (some ⟨tlv.InterestLifetime,
        tlv.writeNonNegativeInteger i.m_interestLifetime.toNat⟩) = some i.m_interestLifetime :=
    fun h => readLifetime_element _ h.1 hlife
  have klife0 : readLifetime none = some DEFAULT_INTEREST_LIFETIME := rfl
  have ksel1 : readSelectors none = some Selectors.default := rfl
  have kdel0 : ∀ o, readSelectedDelegation o none = some none := by
    intro o; cases o <;> rfl
  have kdel : ∀ l k, i.m_selectedDelegationIndex = some k →
      readSelectedDelegation (some l)
        (some ⟨tlv.SelectedDelegation, tlv.writeNonNegativeInteger k⟩) = some (some k) :=
    fun l k hk => readSelectedDelegation_element l k (hdel k hk)
  clear hsz hsel hlife hdel
  obtain ⟨name, sel, nonce, life, link, del, stype, sseq, tflag, tname, wire, lch⟩ := i
  simp only at kname ksel ksel0 klife hlink kdel
  simp only [elements, lifetimeElement, lifetimeOnWire, hasSelectors]
  have hselty : (Selectors.wireEncode sel).type = tlv.Selectors := rfl
  generalize Selectors.wireEncode sel = selBlock at *
  generalize Name.wireEncode name = nameBlock at *
  generalize tlv.writeNonNegativeInteger life.toNat = lifeBytes at *
  generalize tlv.toBE 4 n = nonceBytes at *
  by_cases he : sel.empty = true
  · have ks := ksel0 he
    subst ks
    by_cases hl : (0 ≤ life ∧ life ≠ DEFAULT_INTEREST_LIFETIME)
    · have hk := klife hl
      rcases link with _ | ⟨lt, lv⟩ <;> rcases del with _ | k <;>
      (try (obtain rfl : lt = 6 := hlink _ rfl)) <;>
      simp only [decodeElements, he, if_pos hl, hk, Block.takeOpt, List.nil_append,
        linkElements, Bool.not_false, Bool.not_true, if_true, if_false,
        List.cons_append, List.append_nil, kname, ksel1, knonce, klife0,
        kdel0, kdel, hlink, List.all_nil, selectedDelegationOnWire,
        not_false_eq_true, not_true_eq_false, Bool.false_eq_true,
        tlv.Selectors, tlv.Nonce, tlv.InterestLifetime, tlv.Link, tlv.SelectedDelegation,
        Nat.reduceEqDiff, reduceCtorEq]
    · rcases link with _ | ⟨lt, lv⟩ <;> rcases del with _ | k <;>
      (try (obtain rfl : lt = 6 := hlink _ rfl)) <;>
      simp only [decodeElements, he, if_neg hl, Block.takeOpt, List.nil_append,
        linkElements, Bool.not_false, Bool.not_true, if_true, if_false,
        List.cons_append, List.append_nil, kname, ksel1, knonce, klife0,
        kdel0, kdel, hlink, List.all_nil, selectedDelegationOnWire,
        not_false_eq_true, not_true_eq_false, Bool.false_eq_true,
        tlv.Selectors, tlv.Nonce, tlv.InterestLifetime, tlv.Link, tlv.SelectedDelegation,
        Nat.reduceEqDiff, reduceCtorEq]
  · have he0 : sel.empty = false := by simpa using he
    have ks := ksel he0
    by_cases hl : (0 ≤ life ∧ life ≠ DEFAULT_INTEREST_LIFETIME)
    · have hk := klife hl
      rcases link with _ | ⟨lt, lv⟩ <;> rcases del with _ | k <;>
      (try (obtain rfl : lt = 6 := hlink _ rfl)) <;>
      simp only [decodeElements, he0, if_pos hl, hk, Block.takeOpt, List.nil_append,
        linkElements, Bool.not_false, Bool.not_true, if_true, if_false,
        List.cons_append, List.append_nil, kname, ks, knonce, klife0,
        kdel0, kdel, hlink, hselty, List.all_nil, selectedDelegationOnWire,
        not_false_eq_true, not_true_eq_false, Bool.false_eq_true,
        tlv.Selectors, tlv.Nonce, tlv.InterestLifetime, tlv.Link, tlv.SelectedDelegation,
        Nat.reduceEqDiff, reduceCtorEq]
    · rcases link with _ | ⟨lt, lv⟩ <;> rcases del with _ | k <;>
      (try (obtain rfl : lt = 6 := hlink _ rfl)) <;>
      simp only [decodeElements, he0, if_neg hl, Block.takeOpt, List.nil_append,
        linkElements, Bool.not_false, Bool.not_true, if_true, if_false,
        List.cons_append, List.append_nil, kname, ks, knonce, klife0,
        kdel0, kdel, hlink, hselty, List.all_nil, selectedDelegationOnWire,
        not_false_eq_true, not_true_eq_false, Bool.false_eq_true,
        tlv.Selectors, tlv.Nonce, tlv.InterestLifetime, tlv.Link, tlv.SelectedDelegation,
        Nat.reduceEqDiff, reduceCtorEq]

/-- Decoding the encoding of valid fields succeeds and gives the fields back. -/
theorem wireDecode_encoding (i0 i : Interest) (n : Nat) (hn : n < 2 ^ 32)
    (hv : i.Encodable) (hsize : (i.encoding n).length < 2 ^ 64) :
    i0.wireDecode (i.encoding n) =
      some { i0 with m_name := i.m_name, m_selectors := i.m_selectors, m_nonce := some n,
                     m_interestLifetime := lifetimeOnWire i.m_interestLifetime,
                     m_link := i.m_link,
                     m_selectedDelegationIndex :=
                       selectedDelegationOnWire i.m_link i.m_selectedDelegationIndex,
                     m_wire := some (i.encoding n) } := by
  have hval : (Block.wires (i.elements n)).length < 2 ^ 64 := by
    have := Block.value_length_le_wire ⟨tlv.Interest, Block.wires (i.elements n)⟩
    simp only [encoding] at hsize
    simp only at this
    omega
  have hsz : Block.Sized (i.elements n) :=
    Block.sized_of_wires_length _ (elements_types i n hv.2.2.1) hval
  have hfb : Block.fromBuffer (i.encoding n) =
      some (⟨tlv.Interest, Block.wires (i.elements n)⟩, []) := by
    have := Block.fromBuffer_wire ⟨tlv.Interest, Block.wires (i.elements n)⟩ []
      (by norm_num) (by simpa using hval)
    simpa [encoding] using this
  unfold wireDecode
  rw [hfb]
  simp only [if_true]
  rw [Block.parse_wires _ hsz]
  exact decodeElements_elements i0 i n _ hn hv hsz

theorem lifetimeElement_lifetimeOnWire (t : Int) :
    lifetimeElement (lifetimeOnWire t) = lifetimeElement t := by
  unfold lifetimeOnWire
  by_cases h : 0 ≤ t ∧ t ≠ DEFAULT_INTEREST_LIFETIME
  · rw [if_pos h]
  · rw [if_neg h]
    unfold lifetimeElement
    rw [if_neg h, if_neg (by simp)]

theorem linkElements_selectedDelegationOnWire (l : Option Block) (k : Option Nat) :
    linkElements l (selectedDelegationOnWire l k) = linkElements l k := by
  cases l <;> cases k <;> rfl

theorem wireEncode_eq_encoding (i : Interest) (r : RandomSource) (hc : i.CacheCoherent) :
    ∃ n, n < 2 ^ 32 ∧ (i.wireEncode r).1 = i.encoding n ∧
      ∀ r2, ((i.wireEncode r).2.1.getNonce r2).1 = n := by
  have hlt : ∀ m : Nat, m % 2 ^ 32 < 2 ^ 32 := fun m => Nat.mod_lt _ (by norm_num)
  cases hw : i.m_wire with
  | some w =>
    obtain ⟨n, hn, hwn⟩ := hc w hw
    refine ⟨n % 2 ^ 32, hlt n, ?_, ?_⟩
    · simp [wireEncode, hw, hwn]
    · intro r2; simp [wireEncode, hw, getNonce, hn]
  | none =>
    cases hn : i.m_nonce with
    | some n =>
      refine ⟨n % 2 ^ 32, hlt n, ?_, ?_⟩
      · simp [wireEncode, wireEncodeImpl, hw, getNonce, hn]
      · intro r2; simp [wireEncode, wireEncodeImpl, hw, getNonce, hn]
    | none =>
      refine ⟨r.generateWord32.1, hlt _, ?_, ?_⟩
      · simp [wireEncode, wireEncodeImpl, hw, getNonce, hn, setNonce, encoding, elements,
          hasSelectors]
      · intro r2
        simp [wireEncode, wireEncodeImpl, hw, getNonce, hn, setNonce, RandomSource.generateWord32]

/-- Claim C5: for a valid combination of fields (selector integers, lifetime and
delegation index in range, a Link block of the Link type, a packet below `2 ^ 64`
octets), decoding the octets `wireEncode()` produced succeeds, into any object, and the
decoded Interest encodes to the very same octets, both from its cache and, once the
cache is dropped, afresh from its decoded fields; name, selectors, Link and nonce
come back as they were sent. -/
theorem wireDecode_wireEncode_round_trip (i : Interest) (r : RandomSource)
    (hvalid : i.Encodable) (hcache : i.CacheCoherent)
    (hsize : (i.wireEncode r).1.length < 2 ^ 64) (i0 : Interest) :
    ∃ j, i0.wireDecode (i.wireEncode r).1 = some j ∧
      (∀ r2, (j.wireEncode r2).1 = (i.wireEncode r).1) ∧
      (∀ r2, ((j.setName j.getName).wireEncode r2).1 = (i.wireEncode r).1) ∧
      j.m_name = i.m_name ∧ j.m_selectors = i.m_selectors ∧ j.m_link = i.m_link ∧
      (∀ r2, (j.getNonce r2).1 = ((i.wireEncode r).2.1.getNonce r2).1) := by
  obtain ⟨n, hn, hw, hnonce⟩ := wireEncode_eq_encoding i r hcache
  rw [hw] at hsize ⊢
  refine ⟨_, wireDecode_encoding i0 i n hn hvalid hsize, ?_, ?_, rfl, rfl, rfl, ?_⟩
  · intro r2; simp [wireEncode]
  · intro r2
    simp only [wireEncode, wireEncodeImpl, setName, getName, getNonce, encoding, elements,
      hasSelectors, Nat.mod_eq_of_lt hn, lifetimeElement_lifetimeOnWire,
      linkElements_selectedDelegationOnWire]
  · intro r2
    rw [hnonce r2]
    simp only [getNonce]
    exact Nat.mod_eq_of_lt hn

theorem sampleInterest_encodable : sampleInterest.Encodable := by
  refine ⟨⟨⟨by decide, by decide⟩, ⟨by decide, by decide⟩, ⟨by decide, by decide⟩⟩, by decide, ?_, ?_⟩
  · intro l hl
    have : sampleInterest.m_link = some sampleLink := by decide
    rw [this] at hl
    cases hl
    rfl
  · intro k hk
    have : sampleInterest.m_selectedDelegationIndex = some 1 := by decide
    rw [this] at hk
    cases hk
    norm_num

theorem sampleInterest_cacheCoherent : sampleInterest.CacheCoherent := by
  intro w hw
  have : sampleInterest.m_wire = none := by decide
  rw [this] at hw
  cases hw

/-- Witness for C5: the sample Interest is a valid combination; its wire is the octet
string shown, and it makes the round trip. -/
theorem wireDecode_wireEncode_round_trip_witness :
    sampleInterest.Encodable ∧ sampleInterest.CacheCoherent ∧
    (sampleInterest.wireEncode sampleSource).1 =
      [5, 45, 7, 6, 8, 1, 97, 8, 1, 98, 9, 10, 14, 1, 2, 16, 3, 8, 1, 99, 18, 0,
        10, 4, 0, 0, 0, 7, 12, 2, 4, 210, 6, 10, 7, 3, 8, 1, 120, 7, 3, 8, 1, 121, 32, 1, 1] ∧
    ∃ j, fromWire (sampleInterest.wireEncode sampleSource).1 = some j ∧
      (∀ r2, (j.wireEncode r2).1 = (sampleInterest.wireEncode sampleSource).1) ∧
      (∀ r2, ((j.setName j.getName).wireEncode r2).1 =
        (sampleInterest.wireEncode sampleSource).1) ∧
      j.m_name = sampleInterest.m_name ∧ j.m_selectors = sampleInterest.m_selectors ∧
      j.m_link = sampleInterest.m_link ∧
      (∀ r2, (j.getNonce r2).1 =
        ((sampleInterest.wireEncode sampleSource).2.1.getNonce r2).1) :=
  ⟨sampleInterest_encodable, sampleInterest_cacheCoherent, by decide,
    wireDecode_wireEncode_round_trip sampleInterest sampleSource sampleInterest_encodable
      sampleInterest_cacheCoherent (by decide) (create [] DEFAULT_INTEREST_LIFETIME)⟩

theorem elements_split (i : Interest) (n : Nat) :
    i.elements n = i.elementsBeforeNonce ++ (⟨tlv.Nonce, tlv.toBE 4 n⟩ :: i.elementsAfterNonce) := by
  simp [elements, elementsBeforeNonce, elementsAfterNonce]

theorem wires_elements_length (i : Interest) (n m : Nat) :
    (Block.wires (i.elements n)).length = (Block.wires (i.elements m)).length := by
  simp [elements_split, Block.wires_append, Block.wires, Block.wire, tlv.length_toBE]

theorem replaceNonceInWire_encoding (i : Interest) (n0 n : Nat)
    (hsize : (i.encoding n0).length < 2 ^ 64) :
    replaceNonceInWire (i.encoding n0) n = i.encoding n := by
  have hval : (Block.wires (i.elements n0)).length < 2 ^ 64 := by
    have := Block.value_length_le_wire ⟨tlv.Interest, Block.wires (i.elements n0)⟩
    simp only [encoding] at hsize
    simp only at this
    omega
  have hpre_ty : ∀ b ∈ i.elementsBeforeNonce, b.type = tlv.Name ∨ b.type = tlv.Selectors := by
    intro b hb
    simp only [elementsBeforeNonce, List.mem_cons] at hb
    rcases hb with rfl | hb
    · exact Or.inl rfl
    · split_ifs at hb <;> simp at hb
      subst hb; exact Or.inr rfl
  have hpre_len : (Block.wires i.elementsBeforeNonce).length < 2 ^ 64 := by
    have : (Block.wires i.elementsBeforeNonce).length ≤ (Block.wires (i.elements n0)).length := by
      rw [elements_split, Block.wires_append]; simp
    omega
  have hsz : Block.Sized i.elementsBeforeNonce :=
    Block.sized_of_wires_length _
      (fun b hb => by rcases hpre_ty b hb with h | h <;> rw [h] <;> norm_num) hpre_len
  have hfuel : i.elementsBeforeNonce.length < (Block.wires (i.elements n0)).length := by
    have h1 := Block.length_le_wires (i.elements n0)
    have h2 : i.elementsBeforeNonce.length < (i.elements n0).length := by
      rw [elements_split]; simp
    omega
  have hpatch := Block.patchNonce_wires (tlv.toBE 4 n) (tlv.toBE 4 n0)
    (Block.wires i.elementsAfterNonce) (tlv.length_toBE 4 n0) (tlv.length_toBE 4 n)
    i.elementsBeforeNonce hsz
    (fun b hb => by rcases hpre_ty b hb with h | h <;> rw [h] <;> decide)
    (Block.wires (i.elements n0)).length hfuel
  have hw0 : Block.wires (i.elements n0) = Block.wires i.elementsBeforeNonce ++
      ((Block.mk tlv.Nonce (tlv.toBE 4 n0)).wire ++ Block.wires i.elementsAfterNonce) := by
    rw [elements_split, Block.wires_append]; rfl
  have hw1 : Block.wires (i.elements n) = Block.wires i.elementsBeforeNonce ++
      ((Block.mk tlv.Nonce (tlv.toBE 4 n)).wire ++ Block.wires i.elementsAfterNonce) := by
    rw [elements_split, Block.wires_append]; rfl
  rw [← hw0, ← hw1] at hpatch
  have e1 : i.encoding n0 = tlv.writeVarNumber tlv.Interest ++
      (tlv.writeVarNumber (Block.wires (i.elements n0)).length ++
        Block.wires (i.elements n0)) := by
    simp [encoding, Block.wire]
  have e2 : i.encoding n0 = (tlv.writeVarNumber tlv.Interest ++
      tlv.writeVarNumber (Block.wires (i.elements n0)).length) ++
        Block.wires (i.elements n0) := by
    simp [encoding, Block.wire]
  unfold replaceNonceInWire
  rw [e1, tlv.readVarNumber_writeVarNumber _ _ (by norm_num)]
  simp only
  rw [tlv.readVarNumber_writeVarNumber _ _ hval]
  simp only
  rw [← e1, e2, Block.take_header, hpatch, wires_elements_length i n0 n]
  simp [encoding, Block.wire]

/-- Replacing the nonce keeps a coherent cache coherent: the patched wire is the
encoding of the fields with the new nonce. -/
theorem setNonce_cacheCoherent (i : Interest) (n : Nat) (hc : i.CacheCoherent)
    (hsize : ∀ w, i.m_wire = some w → w.length < 2 ^ 64) : (i.setNonce n).CacheCoherent := by
  intro w hw
  unfold setNonce at hw ⊢
  cases hiw : i.m_wire with
  | none => simp [hiw] at hw
  | some w0 =>
    cases hin : i.m_nonce with
    | none => simp [hiw, hin] at hw
    | some n0 =>
      obtain ⟨n1, hn1, hw0⟩ := hc w0 hiw
      have hs := hsize w0 hiw
      rw [hw0] at hs
      simp only [hiw, hin, Option.some.injEq] at hw ⊢
      refine ⟨n % 2 ^ 32, rfl, ?_⟩
      rw [← hw, hw0, replaceNonceInWire_encoding i _ _ hs]
      simp [encoding, elements, hasSelectors]

theorem findDelegation_lt (n : Name) (ds : List Name) :
    ∀ k, findDelegation n ds = some k → k < ds.length := by
  induction ds with
  | nil => intro k h; simp [findDelegation] at h
  | cons d ds ih =>
    intro k h
    unfold findDelegation at h
    by_cases hd : d = n
    · simp [hd] at h; simp [← h]
    · simp only [hd, if_false, Option.map_eq_some'] at h
      obtain ⟨k1, hk1, rfl⟩ := h
      have := ih k1 hk1
      simp; omega

theorem selectionInBounds_create (d : Block → Option (List Name)) (name : Name) (t : Int) :
    SelectionInBounds d (create name t) := by
  intro k hk
  simp [create] at hk

theorem selectionInBounds_applyLinkOp (d : Block → Option (List Name)) (i : Interest)
    (op : LinkOp) (h : SelectionInBounds d i) : SelectionInBounds d (applyLinkOp d i op) := by
  cases op with
  | setLink link => intro k hk; simp [applyLinkOp, setLink] at hk
  | unsetLink => intro k hk; simp [applyLinkOp, unsetLink] at hk
  | unsetSelectedDelegation => intro k hk; simp [applyLinkOp, unsetSelectedDelegation] at hk
  | setSelectedDelegationByIndex idx =>
    simp only [applyLinkOp, setSelectedDelegationByIndex]
    cases hl : i.m_link with
    | none => simpa [hl] using h
    | some l =>
      cases hd : d l with
      | none => simpa [hl, hd] using h
      | some ds =>
        by_cases hlt : idx < ds.length
        · simp only [hl, hd, hlt, if_true]
          intro k hk
          simp at hk
          exact ⟨l, ds, by simp [hl], hd, by omega⟩
        · simpa [hl, hd, hlt] using h
  | setSelectedDelegationByName n =>
    simp only [applyLinkOp, setSelectedDelegationByName]
    cases hl : i.m_link with
    | none => simpa [hl] using h
    | some l =>
      cases hd : d l with
      | none => simpa [hl, hd] using h
      | some ds =>
        cases hf : findDelegation n ds with
        | none => simpa [hl, hd, hf] using h
        | some k0 =>
          intro k hk
          simp [hd, hf] at hk ⊢
          rw [← hk]; exact findDelegation_lt n ds k0 hf

theorem selectionInBounds_runLinkOps (d : Block → Option (List Name)) (ops : List LinkOp) :
    ∀ i : Interest, SelectionInBounds d i → SelectionInBounds d (runLinkOps d i ops) := by
  induction ops with
  | nil => intro i h; exact h
  | cons op ops ih =>
    intro i h
    exact ih _ (selectionInBounds_applyLinkOp d i op h)

/-- Claim C7: in every state reached from a newly constructed Interest by calls of
`setLink`, `unsetLink`, the two `setSelectedDelegation` and `unsetSelectedDelegation`,
a selected delegation implies a Link, and the selected index lies within the
delegations of that Link; nothing is selected right after `setLink` and right after
`unsetLink`; `setSelectedDelegation(index)` with an index out of bound throws and
leaves the object as it was. -/
theorem selected_delegation_invariant (delegations : Block → Option (List Name))
    (name : Name) (lifetime : Int) (ops : List LinkOp) :
    ((runLinkOps delegations (create name lifetime) ops).hasSelectedDelegation = true →
      (runLinkOps delegations (create name lifetime) ops).hasLink = true) ∧
    SelectionInBounds delegations (runLinkOps delegations (create name lifetime) ops) ∧
    (∀ link : Block,
      ((runLinkOps delegations (create name lifetime) ops).setLink link).hasSelectedDelegation
        = false) ∧
    (runLinkOps delegations (create name lifetime) ops).unsetLink.hasSelectedDelegation = false ∧
    (∀ (l : Block) (ds : List Name) (k : Nat),
      (runLinkOps delegations (create name lifetime) ops).m_link = some l →
      delegations l = some ds → ds.length ≤ k →
      ((runLinkOps delegations (create name lifetime) ops).setSelectedDelegationByIndex
          delegations k).error.isSome = true ∧
      ((runLinkOps delegations (create name lifetime) ops).setSelectedDelegationByIndex
          delegations k).state = runLinkOps delegations (create name lifetime) ops) := by
  have hinv := selectionInBounds_runLinkOps delegations ops _
    (selectionInBounds_create delegations name lifetime)
  generalize runLinkOps delegations (create name lifetime) ops = s at hinv
  refine ⟨?_, hinv, fun _ => rfl, rfl, ?_⟩
  · intro hs
    cases hk : s.m_selectedDelegationIndex with
    | none => simp [hasSelectedDelegation, hk] at hs
    | some k =>
      obtain ⟨l, ds, hl, _, _⟩ := hinv k hk
      simp [hasLink, hl]
  · intro l ds k hl hd hk
    have : ¬ k < ds.length := by omega
    simp [setSelectedDelegationByIndex, hl, hd, this]

/-- Witness for C7: Link `[/x, /y]`, then `setSelectedDelegation(1)` selects `/y`, and
`setSelectedDelegation(5)` throws and changes nothing. -/
theorem selected_delegation_invariant_witness :
    (runLinkOps sampleDelegations (create [[97]] DEFAULT_INTEREST_LIFETIME)
        [.setLink sampleLink, .setSelectedDelegationByIndex 1]).m_selectedDelegationIndex = some 1 ∧
    getSelectedDelegation sampleDelegations
      (runLinkOps sampleDelegations (create [[97]] DEFAULT_INTEREST_LIFETIME)
        [.setLink sampleLink, .setSelectedDelegationByIndex 1]) = some [[121]] ∧
    ((runLinkOps sampleDelegations (create [[97]] DEFAULT_INTEREST_LIFETIME)
        [.setLink sampleLink, .setSelectedDelegationByIndex 1]).setSelectedDelegationByIndex
          sampleDelegations 5).error.isSome = true ∧
    ((runLinkOps sampleDelegations (create [[97]] DEFAULT_INTEREST_LIFETIME)
        [.setLink sampleLink, .setSelectedDelegationByIndex 1]).setSelectedDelegationByIndex
          sampleDelegations 5).state =
      runLinkOps sampleDelegations (create [[97]] DEFAULT_INTEREST_LIFETIME)
        [.setLink sampleLink, .setSelectedDelegationByIndex 1] :=
  ⟨by decide, by decide,
    ((selected_delegation_invariant sampleDelegations [[97]] DEFAULT_INTEREST_LIFETIME
      [.setLink sampleLink, .setSelectedDelegationByIndex 1]).2.2.2.2
        sampleLink [[[120]], [[121]]] 5 (by decide) (by decide) (by decide)).1,
    ((selected_delegation_invariant sampleDelegations [[97]] DEFAULT_INTEREST_LIFETIME
      [.setLink sampleLink, .setSelectedDelegationByIndex 1]).2.2.2.2
        sampleLink [[[120]], [[121]]] 5 (by decide) (by decide) (by decide)).2⟩

theorem refreshLoop_ne (old : Nat) : ∀ (fuel : Nat) (r r1 : RandomSource) (w : Nat),
    refreshLoop old fuel r = some (w, r1) → w ≠ old ∧ w < 2 ^ 32 := by
  intro fuel
  induction fuel with
  | zero => intro r r1 w h; simp [refreshLoop] at h
  | succ fuel ih =>
    intro r r1 w h
    unfold refreshLoop at h
    by_cases hw : r.generateWord32.1 = old
    · rw [if_pos hw] at h
      exact ih _ _ _ h
    · rw [if_neg hw] at h
      have h1 : r.generateWord32.1 = w := by
        have := congrArg (fun o => o.map Prod.fst) h
        simpa using this
      refine ⟨by rw [← h1]; exact hw, ?_⟩
      rw [← h1]
      exact Nat.mod_lt _ (by norm_num)

theorem refreshLoop_terminates (old : Nat) : ∀ (fuel : Nat) (r : RandomSource) (k : Nat),
    k < fuel → r.words (r.pos + k) % 2 ^ 32 ≠ old → (refreshLoop old fuel r).isSome = true := by
  intro fuel
  induction fuel with
  | zero => intro r k hk; omega
  | succ fuel ih =>
    intro r k hk hne
    unfold refreshLoop
    by_cases hw : r.generateWord32.1 = old
    · rw [if_pos hw]
      cases k with
      | zero => exact absurd hw (by simpa [RandomSource.generateWord32] using hne)
      | succ k =>
        apply ih r.generateWord32.2 k (by omega)
        have hpos : r.pos + 1 + k = r.pos + (k + 1) := by omega
        simp only [RandomSource.generateWord32, hpos]
        exact hne
    · rw [if_neg hw]; rfl

theorem getNonce_setNonce (i : Interest) (n : Nat) (r : RandomSource) :
    ((i.setNonce n).getNonce r).1 = n % 2 ^ 32 ∧ (i.setNonce n).hasNonce = true := by
  unfold setNonce
  cases i.m_wire <;> cases i.m_nonce <;> simp [getNonce, hasNonce]

/-- Claim C8: without a nonce `refreshNonce()` changes nothing; with a nonce, whenever
it returns the new nonce differs from the old one, and it does return as soon as one of
the first `fuel` words of the generator differs from the old nonce. -/
theorem refreshNonce_noop_or_different (i : Interest) (fuel : Nat) (r : RandomSource) :
    (i.hasNonce = false → i.refreshNonce fuel r = some (i, r)) ∧
    (i.hasNonce = true →
      (∀ j r1, i.refreshNonce fuel r = some (j, r1) →
        j.hasNonce = true ∧ ∀ r2, (j.getNonce r2).1 ≠ (i.getNonce r).1) ∧
      ((∃ k, k < fuel ∧ r.words (r.pos + k) % 2 ^ 32 ≠ (i.getNonce r).1) →
        ∃ j r1, i.refreshNonce fuel r = some (j, r1) ∧ j.hasNonce = true ∧
          ∀ r2, (j.getNonce r2).1 ≠ (i.getNonce r).1)) := by
  have key : i.hasNonce = true → ∀ j r1, i.refreshNonce fuel r = some (j, r1) →
      j.hasNonce = true ∧ ∀ r2, (j.getNonce r2).1 ≠ (i.getNonce r).1 := by
    intro hn j r1 h
    unfold refreshNonce at h
    rw [if_pos hn] at h
    cases hl : refreshLoop (i.getNonce r).1 fuel r with
    | none => simp [hl] at h
    | some p =>
      obtain ⟨w, r3⟩ := p
      simp only [hl, Option.some.injEq, Prod.mk.injEq] at h
      obtain ⟨hj, _⟩ := h
      obtain ⟨hne, hlt⟩ := refreshLoop_ne _ _ _ _ _ hl
      subst hj
      refine ⟨(getNonce_setNonce i w r).2, fun r2 => ?_⟩
      rw [(getNonce_setNonce i w r2).1, Nat.mod_eq_of_lt hlt]
      exact hne
  refine ⟨?_, fun hn => ⟨key hn, ?_⟩⟩
  · intro hn
    simp [refreshNonce, hn]
  · rintro ⟨k, hk, hne⟩
    have ht := refreshLoop_terminates _ fuel r k hk hne
    cases hl : refreshLoop (i.getNonce r).1 fuel r with
    | none => simp [hl] at ht
    | some p =>
      have hr : i.refreshNonce fuel r = some (i.setNonce p.1, p.2) := by
        simp [refreshNonce, hn, hl]
      exact ⟨_, _, hr, key hn _ _ hr⟩

/-- Witness for C8: nonce 7, generator 7, 8, 9, ...: the second word is taken. -/
theorem refreshNonce_noop_or_different_witness :
    ((create [[97]] DEFAULT_INTEREST_LIFETIME).setNonce 7).hasNonce = true ∧
    (∃ j r1, ((create [[97]] DEFAULT_INTEREST_LIFETIME).setNonce 7).refreshNonce 2 sampleSource
        = some (j, r1) ∧ j.hasNonce = true ∧
      ∀ r2, (j.getNonce r2).1 ≠
        (((create [[97]] DEFAULT_INTEREST_LIFETIME).setNonce 7).getNonce sampleSource).1) :=
  ⟨by decide,
    ((refreshNonce_noop_or_different ((create [[97]] DEFAULT_INTEREST_LIFETIME).setNonce 7) 2
      sampleSource).2 (by decide)).2 ⟨1, by decide, by decide⟩⟩

/-- Counterexample to C9 as stated: the encoded Interest `/a` has its wire cached, and
after `setNonce(5)` the wire is still cached. -/
theorem setNonce_keeps_wire_counterexample :
    sampleEncoded.hasWire = true ∧ ¬ ((sampleEncoded.setNonce 5).hasWire = false) := by
  decide

/-- Claim C9, amended: on an Interest whose wire is cached and which carries a nonce,
`setNonce(n)` keeps the wire cached: the nonce octets are overwritten inside the
existing wire, the nonce becomes `n`, and no other member changes (name, selectors,
lifetime, Link, selected delegation index, local control header, special-interest and
trace members); and when the cached wire was the encoding of the fields, it still is
afterwards. -/
theorem setNonce_replaces_nonce_in_cached_wire (i : Interest) (n : Nat)
    (hw : i.hasWire = true) (hn : i.hasNonce = true) :
    (i.setNonce n).hasWire = true ∧
    (∃ w, i.m_wire = some w ∧
      (i.setNonce n).m_wire = some (replaceNonceInWire w (n % 2 ^ 32))) ∧
    (i.setNonce n).m_nonce = some (n % 2 ^ 32) ∧
    (i.setNonce n).m_name = i.m_name ∧
    (i.setNonce n).m_selectors = i.m_selectors ∧
    (i.setNonce n).m_interestLifetime = i.m_interestLifetime ∧
    (i.setNonce n).m_link = i.m_link ∧
    (i.setNonce n).m_selectedDelegationIndex = i.m_selectedDelegationIndex ∧
    (i.setNonce n).m_localControlHeader = i.m_localControlHeader ∧
    (i.setNonce n).m_specialInterestType = i.m_specialInterestType ∧
    (i.setNonce n).m_specialInterestSequenceNumber = i.m_specialInterestSequenceNumber ∧
    (i.setNonce n).m_traceForwardingFlag = i.m_traceForwardingFlag ∧
    (i.setNonce n).m_traceName = i.m_traceName ∧
    (i.CacheCoherent → (∀ w, i.m_wire = some w → w.length < 2 ^ 64) →
      (i.setNonce n).CacheCoherent ∧
      ∀ r, ((i.setNonce n).wireEncode r).1 = i.encoding (n % 2 ^ 32)) := by
  cases hiw : i.m_wire with
  | none => simp [hasWire, hiw] at hw
  | some w =>
    cases hin : i.m_nonce with
    | none => simp [hasNonce, hin] at hn
    | some n0 =>
      refine ⟨by simp [setNonce, hasWire, hiw, hin], ⟨w, rfl, by simp [setNonce, hiw, hin]⟩,
        by simp [setNonce, hiw, hin], by simp [setNonce, hiw, hin],
        by simp [setNonce, hiw, hin], by simp [setNonce, hiw, hin],
        by simp [setNonce, hiw, hin], by simp [setNonce, hiw, hin],
        by simp [setNonce, hiw, hin], by simp [setNonce, hiw, hin],
        by simp [setNonce, hiw, hin], by simp [setNonce, hiw, hin],
        by simp [setNonce, hiw, hin], ?_⟩
      intro hc hsize
      refine ⟨setNonce_cacheCoherent i n hc (by rw [hiw]; exact hsize), fun r => ?_⟩
      obtain ⟨n1, hn1, hw1⟩ := hc w hiw
      have hs := hsize w rfl
      rw [hw1] at hs
      simp only [wireEncode, setNonce, hiw, hin, hw1, replaceNonceInWire_encoding i _ _ hs]

theorem sampleEncoded_cacheCoherent : sampleEncoded.CacheCoherent := by
  intro w hw
  have h1 : sampleEncoded.m_wire = some (sampleEncoded.encoding (7 % 2 ^ 32)) := by decide
  have h2 : sampleEncoded.m_nonce = some 7 := by decide
  rw [h1] at hw
  cases hw
  exact ⟨7, h2, rfl⟩

theorem sampleEncoded_wire_size : ∀ w, sampleEncoded.m_wire = some w → w.length < 2 ^ 64 := by
  intro w hw
  have h1 : sampleEncoded.m_wire = some [5, 11, 7, 3, 8, 1, 97, 10, 4, 0, 0, 0, 7] := by decide
  rw [h1] at hw
  cases hw
  decide

/-- Witness for C9 (amended): the encoded Interest `/a` has a cached wire and a nonce;
after `setNonce(5)` the wire is still there, with the nonce octets replaced, and it is
the encoding of the fields. -/
theorem setNonce_replaces_nonce_in_cached_wire_witness :
    sampleEncoded.hasWire = true ∧ sampleEncoded.hasNonce = true ∧
    sampleEncoded.m_wire = some [5, 11, 7, 3, 8, 1, 97, 10, 4, 0, 0, 0, 7] ∧
    (sampleEncoded.setNonce 5).m_wire = some [5, 11, 7, 3, 8, 1, 97, 10, 4, 0, 0, 0, 5] ∧
    (sampleEncoded.setNonce 5).hasWire = true ∧
    (sampleEncoded.setNonce 5).CacheCoherent :=
  ⟨by decide, by decide, by decide, by decide,
    (setNonce_replaces_nonce_in_cached_wire sampleEncoded 5 (by decide) (by decide)).1,
    ((setNonce_replaces_nonce_in_cached_wire sampleEncoded 5 (by decide)
      (by decide)).2.2.2.2.2.2.2.2.2.2.2.2.2 sampleEncoded_cacheCoherent
        sampleEncoded_wire_size).1⟩

/-- In every state `setNonce` touches only the nonce and the wire. -/
theorem setNonce_frame (i : Interest) (n : Nat) :
    (i.setNonce n).m_nonce = some (n % 2 ^ 32) ∧
    (i.setNonce n).m_name = i.m_name ∧
    (i.setNonce n).m_selectors = i.m_selectors ∧
    (i.setNonce n).m_interestLifetime = i.m_interestLifetime ∧
    (i.setNonce n).m_link = i.m_link ∧
    (i.setNonce n).m_selectedDelegationIndex = i.m_selectedDelegationIndex ∧
    (i.setNonce n).m_localControlHeader = i.m_localControlHeader ∧
    (i.setNonce n).m_specialInterestType = i.m_specialInterestType ∧
    (i.setNonce n).m_specialInterestSequenceNumber = i.m_specialInterestSequenceNumber ∧
    (i.setNonce n).m_traceForwardingFlag = i.m_traceForwardingFlag ∧
    (i.setNonce n).m_traceName = i.m_traceName := by
  unfold setNonce
  cases i.m_wire <;> cases i.m_nonce <;> simp

/-- Without a cached wire, or without a nonce to replace in it, `setNonce` leaves the
Interest uncached. -/
theorem setNonce_hasWire (i : Interest) (n : Nat) :
    (i.setNonce n).hasWire = (i.hasWire && i.hasNonce) := by
  unfold setNonce
  cases hw : i.m_wire <;> cases hn : i.m_nonce <;> simp [hasWire, hasNonce, hw, hn]

end Interest

namespace TagBuffer

theorem byte_of_shift (data k : Nat) : (data >>> k) &&& 0xff = data / 2 ^ k % 256 := by
  rw [Nat.shiftRight_eq_div_pow]
  exact Nat.and_pow_two_sub_one_eq_mod _ 8

theorem shift_or_byte (a b : Nat) (ha : a < 2 ^ 24) (hb : b < 2 ^ 8) :
    (a <<< 8) % 2 ^ 32 ||| b = a * 256 + b := by
  rw [Nat.shiftLeft_eq, Nat.mod_eq_of_lt (by omega), Nat.mul_comm a (2 ^ 8),
    ← Nat.mul_add_lt_is_or hb a]

theorem combine_bytes (b3 b2 b1 b0 : Nat) (h3 : b3 < 2 ^ 8) (h2 : b2 < 2 ^ 8)
    (h1 : b1 < 2 ^ 8) (h0 : b0 < 2 ^ 8) :
    ((((b3 <<< 8) % 2 ^ 32 ||| b2) <<< 8) % 2 ^ 32 ||| b1) <<< 8 % 2 ^ 32 ||| b0 =
      ((b3 * 256 + b2) * 256 + b1) * 256 + b0 := by
  rw [shift_or_byte b3 b2 (by omega) h2, shift_or_byte (b3 * 256 + b2) b1 (by omega) h1,
    shift_or_byte ((b3 * 256 + b2) * 256 + b1) b0 (by omega) h0]

theorem WriteU32_eq (b : TagBuffer) (data : Nat) (h : b.m_current + 4 ≤ b.memory.length) :
    b.WriteU32 data = some
      { memory := (((b.memory.set b.m_current (data % 256)).set (b.m_current + 1)
          (data / 2 ^ 8 % 256)).set (b.m_current + 2) (data / 2 ^ 16 % 256)).set
          (b.m_current + 3) (data / 2 ^ 24 % 256),
        m_current := b.m_current + 4 } := by
  have h1 : b.m_current + 1 ≤ b.memory.length := by omega
  have h2 : b.m_current + 1 + 1 ≤ b.memory.length := by omega
  have h3 : b.m_current + 1 + 1 + 1 ≤ b.memory.length := by omega
  have h4 : b.m_current + 1 + 1 + 1 + 1 ≤ b.memory.length := by omega
  simp only [WriteU32, byte_of_shift, WriteU8, h1, h2, h3, h4, List.length_set, if_true,
    Option.some_bind, pow_zero, Nat.div_one]
  norm_num [Nat.add_assoc]

theorem ReadU32_eq (b : TagBuffer) (h : b.m_current + 4 ≤ b.memory.length) :
    b.ReadU32 = some
      (((b.memory.getD (b.m_current + 3) 0 % 256 * 256 +
            b.memory.getD (b.m_current + 2) 0 % 256) * 256 +
          b.memory.getD (b.m_current + 1) 0 % 256) * 256 +
        b.memory.getD b.m_current 0 % 256,
        { b with m_current := b.m_current + 4 }) := by
  have h1 : b.m_current + 1 ≤ b.memory.length := by omega
  have h2 : b.m_current + 1 + 1 ≤ b.memory.length := by omega
  have h3 : b.m_current + 1 + 1 + 1 ≤ b.memory.length := by omega
  have h4 : b.m_current + 1 + 1 + 1 + 1 ≤ b.memory.length := by omega
  have m : ∀ x : Nat, x % 2 ^ 8 < 2 ^ 8 := fun x => Nat.mod_lt _ (by norm_num)
  simp only [ReadU32, ReadU8, h1, h2, h3, h4, if_true, Option.some_bind]
  rw [combine_bytes _ _ _ _ (m _) (m _) (m _) (m _)]
  norm_num [Nat.add_assoc]

end TagBuffer

namespace FwFromTag

theorem set4_getD (mem : List Nat) (c x0 x1 x2 x3 : Nat) (h : c + 4 ≤ mem.length) :
    ((((mem.set c x0).set (c + 1) x1).set (c + 2) x2).set (c + 3) x3).getD c 0 = x0 ∧
    ((((mem.set c x0).set (c + 1) x1).set (c + 2) x2).set (c + 3) x3).getD (c + 1) 0 = x1 ∧
    ((((mem.set c x0).set (c + 1) x1).set (c + 2) x2).set (c + 3) x3).getD (c + 2) 0 = x2 ∧
    ((((mem.set c x0).set (c + 1) x1).set (c + 2) x2).set (c + 3) x3).getD (c + 3) 0 = x3 := by
  have h0 : c < mem.length := by omega
  have h1 : c + 1 < mem.length := by omega
  have h2 : c + 2 < mem.length := by omega
  have h3 : c + 3 < mem.length := by omega
  simp [List.getD_eq_getElem?_getD, List.getElem?_set, h0, h1, h2, h3]

theorem window_getD (mem : List Nat) (c k : Nat) (hk : k < 4) :
    ((mem.drop c).take 4).getD k 0 = mem.getD (c + k) 0 := by
  simp [List.getD_eq_getElem?_getD, List.getElem?_take, List.getElem?_drop, hk]

theorem word_of_bytes (v : Nat) (h : v < 2 ^ 32) :
    ((v / 2 ^ 24 % 256 % 256 * 256 + v / 2 ^ 16 % 256 % 256) * 256 + v / 2 ^ 8 % 256 % 256) * 256
      + v % 256 % 256 = v := by
  omega

/-- Claim C11: for a tag holding a 32-bit identifier and a buffer with room for it,
`GetSerializedSize()` is 4, and `Serialize` writes exactly that many octets: the cursor
advances by 4, the region keeps its length and no octet outside the four written ones
changes; `Deserialize` on those octets (read in place, or taken out as a buffer of their
own) yields a tag holding the same identifier. -/
theorem Serialize_Deserialize_round_trip (t t0 : FwFromTag) (i : TagBuffer)
    (hid : t.m_frombSId < 2 ^ 32)
    (hroom : i.m_current + t.GetSerializedSize ≤ i.memory.length) :
    t.GetSerializedSize = 4 ∧
    ∃ out, t.Serialize i = some out ∧
      out.m_current = i.m_current + t.GetSerializedSize ∧
      out.memory.length = i.memory.length ∧
      (∀ k, k < i.m_current ∨ i.m_current + 4 ≤ k → out.memory[k]? = i.memory[k]?) ∧
      t0.Deserialize { memory := out.memory, m_current := i.m_current } =
        some { m_frombSId := t.m_frombSId } ∧
      t0.Deserialize { memory := (out.memory.drop i.m_current).take 4, m_current := 0 } =
        some { m_frombSId := t.m_frombSId } := by
  have hroom4 : i.m_current + 4 ≤ i.memory.length := hroom
  refine ⟨rfl, _, TagBuffer.WriteU32_eq i _ hroom4, rfl, by simp, ?_, ?_, ?_⟩
  · intro k hk
    have e0 : i.m_current ≠ k := by omega
    have e1 : i.m_current + 1 ≠ k := by omega
    have e2 : i.m_current + 2 ≠ k := by omega
    have e3 : i.m_current + 3 ≠ k := by omega
    simp [List.getElem?_set_ne, e0, e1, e2, e3]
  · obtain ⟨g0, g1, g2, g3⟩ := set4_getD i.memory i.m_current (t.m_frombSId % 256)
      (t.m_frombSId / 2 ^ 8 % 256) (t.m_frombSId / 2 ^ 16 % 256) (t.m_frombSId / 2 ^ 24 % 256)
      hroom4
    unfold Deserialize
    rw [TagBuffer.ReadU32_eq _ (by simpa using hroom4)]
    simp only [g0, g1, g2, g3, Option.map_some', word_of_bytes _ hid]
  · obtain ⟨g0, g1, g2, g3⟩ := set4_getD i.memory i.m_current (t.m_frombSId % 256)
      (t.m_frombSId / 2 ^ 8 % 256) (t.m_frombSId / 2 ^ 16 % 256) (t.m_frombSId / 2 ^ 24 % 256)
      hroom4
    have w := window_getD ((((i.memory.set i.m_current (t.m_frombSId % 256)).set
      (i.m_current + 1) (t.m_frombSId / 2 ^ 8 % 256)).set (i.m_current + 2)
      (t.m_frombSId / 2 ^ 16 % 256)).set (i.m_current + 3) (t.m_frombSId / 2 ^ 24 % 256))
      i.m_current
    unfold Deserialize
    rw [TagBuffer.ReadU32_eq _ (by simp; omega)]
    simp only [Nat.zero_add, w 3 (by norm_num), w 2 (by norm_num), w 1 (by norm_num),
      w 0 (by norm_num), Nat.add_zero, g0, g1, g2, g3, Option.map_some', word_of_bytes _ hid]

/-- Witness for C11: the identifier `0x01020304` in a buffer of exactly four octets is
written as 4, 3, 2, 1 and read back. -/
theorem Serialize_Deserialize_round_trip_witness :
    (16909060 : Nat) < 2 ^ 32 ∧
    (FwFromTag.mk 16909060).Serialize ⟨[0, 0, 0, 0], 0⟩ = some ⟨[4, 3, 2, 1], 4⟩ ∧
    (FwFromTag.mk 0).Deserialize ⟨[4, 3, 2, 1], 0⟩ = some (FwFromTag.mk 16909060) ∧
    ∃ out, (FwFromTag.mk 16909060).Serialize ⟨[0, 0, 0, 0], 0⟩ = some out ∧
      out.m_current = 0 + (FwFromTag.mk 16909060).GetSerializedSize ∧
      out.memory.length = 4 ∧
      (∀ k, k < 0 ∨ 0 + 4 ≤ k → out.memory[k]? = [0, 0, 0, 0][k]?) ∧
      (FwFromTag.mk 0).Deserialize { memory := out.memory, m_current := 0 } =
        some { m_frombSId := 16909060 } ∧
      (FwFromTag.mk 0).Deserialize { memory := (out.memory.drop 0).take 4, m_current := 0 } =
        some { m_frombSId := 16909060 } :=
  ⟨by decide, by decide, by decide,
    (Serialize_Deserialize_round_trip (FwFromTag.mk 16909060) (FwFromTag.mk 0)
      ⟨[0, 0, 0, 0], 0⟩ (by decide) (by decide)).2⟩

/-- Without room for four octets the assertion inside `WriteU32` fails. -/
theorem Serialize_needs_four_octets (t : FwFromTag) (i : TagBuffer)
    (h : i.memory.length < i.m_current + 4) : t.Serialize i = none := by
  simp only [Serialize, TagBuffer.WriteU32, TagBuffer.WriteU8]
  by_cases h1 : i.m_current + 1 ≤ i.memory.length
  · by_cases h2 : i.m_current + 1 + 1 ≤ i.memory.length
    · by_cases h3 : i.m_current + 1 + 1 + 1 ≤ i.memory.length
      · have h4 : ¬ i.m_current + 1 + 1 + 1 + 1 ≤ i.memory.length := by omega
        simp [h1, h2, h3, h4]
      · simp [h1, h2, h3]
    · simp [h1, h2]
  · simp [h1]

end FwFromTag

end ndn
